import Mathlib

/-!
Shallow embedding of the `checkiid` IID-checker (checkiid.py / idlutils.py).

Diff lines and IDL file lines are modelled as `List Char` without their
trailing newline; none of the regular expressions involved can distinguish
the two forms.  Python `None` is modelled with `Option`, Python exceptions
with `Except PyErr`, and the truthiness tests the code performs on strings
and optional strings are modelled explicitly (`pyTruthy`).
-/

namespace Checkiid

/-- Python's `\s` character class: space, tab, newline, CR, VT, FF. -/
def isSpaceChar (c : Char) : Bool :=
  c = ' ' || c = '\t' || c = '\n' || c = '\r' || c = '\x0b' || c = '\x0c'

/-- Python's `[a-zA-Z0-9]` character class. -/
def isAlnumChar (c : Char) : Bool := c.isAlpha || c.isDigit

/-- Python `str.rstrip()`. -/
def rstripList (cs : List Char) : List Char :=
  (cs.reverse.dropWhile isSpaceChar).reverse

/-- Python `str.strip()`. -/
def stripList (cs : List Char) : List Char :=
  rstripList (cs.dropWhile isSpaceChar)

/-- Python substring containment, `needle in hay`. -/
def containsSub (needle : List Char) : List Char → Bool
  | [] => needle.isEmpty
  | c :: t => needle.isPrefixOf (c :: t) || containsSub needle t

/-- Index of the first occurrence of `needle` in a list (`re.search` start). -/
def findSubIdx (needle : List Char) : List Char → Option Nat
  | [] => if needle.isEmpty then some 0 else none
  | c :: t =>
    if needle.isPrefixOf (c :: t) then some 0
    else (findSubIdx needle t).map (· + 1)

/-- Index of the last occurrence of character `c` (greedy `(.*)c`). -/
def lastIdxOf (c : Char) (cs : List Char) : Option Nat :=
  match cs.reverse.findIdx? (fun d => d = c) with
  | some k => some (cs.length - 1 - k)
  | none => none

/-- Python `str.split(sep)` for a one-character separator. -/
def splitOnChar (sep : Char) : List Char → List (List Char)
  | [] => [[]]
  | c :: t =>
    match splitOnChar sep t with
    | h :: r => if c = sep then [] :: h :: r else (c :: h) :: r
    | [] => [[c]]

/-- Python truthiness of an optional string (`None` and `""` are falsy). -/
def pyTruthy (s : Option String) : Bool :=
  match s with
  | none => false
  | some t => !t.isEmpty

/-- Python `int()` applied to a string: optional surrounding whitespace,
optional sign, then one or more digits; anything else raises. -/
def pyInt (cs : List Char) : Option Int :=
  match stripList cs with
  | '-' :: ds => if ds ≠ [] ∧ ds.all Char.isDigit
                 then some (-(String.mk ds).toNat!) else none
  | '+' :: ds => if ds ≠ [] ∧ ds.all Char.isDigit
                 then some ((String.mk ds).toNat!) else none
  | ds => if ds ≠ [] ∧ ds.all Char.isDigit
          then some ((String.mk ds).toNat!) else none

/-- Python exceptions that the embedded code can raise. -/
inductive PyErr where
  | ioError        -- open() on a missing file
  | indexError     -- list index out of range
  | typeError      -- e.g. list[None], str + None
  | nameError      -- local variable referenced before assignment
  | attributeError -- list.push does not exist
  | valueError     -- int() on a non-numeric string
  | keyError
deriving DecidableEq

/-! ### Line classifier predicates (checkiid.py lines 351-795) -/

/-- `isAdditionLine` (line 733): starts with `+` but not with `+++`. -/
def isAdditionLine (cs : List Char) : Bool :=
  ['+'].isPrefixOf cs && !(['+', '+', '+'].isPrefixOf cs)

/-- `isRemovalLine` (line 761): starts with `-` but not with `---`. -/
def isRemovalLine (cs : List Char) : Bool :=
  ['-'].isPrefixOf cs && !(['-', '-', '-'].isPrefixOf cs)

/-- `isLineChange` (line 722). -/
def isLineChange (cs : List Char) : Bool :=
  isAdditionLine cs || isRemovalLine cs

/-- `isContextLine` (line 646): matches `^@@`. -/
def isContextLine (cs : List Char) : Bool :=
  ['@', '@'].isPrefixOf cs

/-- `doesLineSignifyDeletion` (line 542): matches `^(\+\+\+)\ /dev/null`. -/
def doesLineSignifyDeletion (cs : List Char) : Bool :=
  "+++ /dev/null".toList.isPrefixOf cs

/-- `isEndOfInterfaceRemoval` (line 745): a removal line matching
`^[\-](\s)*\}`. -/
def isEndOfInterfaceRemoval (cs : List Char) : Bool :=
  isRemovalLine cs &&
    (match cs with
     | '-' :: t =>
       (match t.dropWhile isSpaceChar with
        | '}' :: _ => true
        | _ => false)
     | _ => false)

/-- `extractContentFromChangeLine` (line 773). -/
def extractContentFromChangeLine (cs : List Char) : Option (List Char) :=
  if !isRemovalLine cs && !isAdditionLine cs then none
  else
    match cs with
    | c :: t => if c = '-' || c = '+' then some t else none
    | [] => none

/-- `extractIID` (line 474): `re.search("uuid\((.*)\)")`; the group runs from
the first `uuid(` to the last `)` after it. -/
def extractIID (cs : List Char) : Option String :=
  match findSubIdx "uuid(".toList cs with
  | none => none
  | some i =>
    match lastIdxOf ')' (cs.drop (i + 5)) with
    | none => none
    | some j => some (String.mk ((cs.drop (i + 5)).take j))

/-- `isLineIIDDefinition` (line 450), including the truthiness test the code
applies to the extracted group. -/
def isLineIIDDefinition (cs : List Char) : Bool :=
  pyTruthy (extractIID cs)

/-- `isLineIIDAddition` (line 436). -/
def isLineIIDAddition (cs : List Char) : Bool :=
  pyTruthy (extractIID cs) && ['+'].isPrefixOf cs

/-- `isLineIIDRemoval` (line 462). -/
def isLineIIDRemoval (cs : List Char) : Bool :=
  pyTruthy (extractIID cs) && ['-'].isPrefixOf cs

/-- The regex of `isLineConstantExpression` (line 566):
`^(\s)*[\+\-](\s)+const(\s)+(.*)`. -/
def constExprTail (cs : List Char) : Bool :=
  match cs.dropWhile isSpaceChar with
  | c :: t =>
    (c = '+' || c = '-') &&
      (match t with
       | d :: _ =>
         isSpaceChar d &&
           ("const".toList.isPrefixOf (t.dropWhile isSpaceChar) &&
             (match (t.dropWhile isSpaceChar).drop 5 with
              | e :: _ => isSpaceChar e
              | [] => false))
       | [] => false)
  | [] => false

/-- `isLineConstantExpression` (line 561). -/
def isLineConstantExpression (cs : List Char) : Bool :=
  (isAdditionLine cs || isRemovalLine cs) && constExprTail cs

/-! ### Descriptor registry (checkiid.py lines 113-157, idlutils.py 13-119) -/

/-- `IDLDescriptor.__init__`: a token plus a binary-compatibility flag. -/
structure IDLDescriptor where
  token : String
  binaryCompat : Bool
deriving DecidableEq

/-- `IDLDescriptor.isInLine` (line 124): the line must match
`^(\s)*[\+\-](\s)*\[(.*)](.*)`; group 3 runs to the last `]`, is split on
`,`, and each raw attribute is compared to the token with `==`. -/
def descriptorIsInLine (tok : String) (cs : List Char) : Bool :=
  match cs.dropWhile isSpaceChar with
  | c :: t =>
    (c = '+' || c = '-') &&
      (match t.dropWhile isSpaceChar with
       | '[' :: u =>
         (match lastIdxOf ']' u with
          | some j => (splitOnChar ',' (u.take j)).any (fun a => String.mk a = tok)
          | none => false)
       | _ => false)
  | [] => false

/-- `IDLDescriptor.hasDescriptorsInLine` (line 135). -/
def hasDescriptorsInLine (descs : List IDLDescriptor) (cs : List Char) : Bool :=
  descs.any (fun d => descriptorIsInLine d.token cs)

/-- `IDLDescriptor.areDescriptorsInLineAffectingBinaryCompat` (line 142).
The loop body tests `if desc.affectsBinaryCompatibility:` — a bound-method
object, not a call — which is always truthy, so the loop returns `True` on
its first iteration whenever the list is non-empty. -/
def areDescriptorsInLineAffectingBinaryCompat
    (descs : List IDLDescriptor) (cs : List Char) : Bool :=
  if !hasDescriptorsInLine descs cs then false
  else !descs.isEmpty

/-- The behaviour of `areDescriptorsInLineAffectingBinaryCompat` documented by
its own doc comment and by spec §4.2: some descriptor present AND some
registered descriptor flagged as affecting binary compatibility. -/
def areDescriptorsInLineAffectingBinaryCompatDoc
    (descs : List IDLDescriptor) (cs : List Char) : Bool :=
  hasDescriptorsInLine descs cs && descs.any (fun d => d.binaryCompat)

/-- The descriptor registry installed by `main` (checkiid.py lines 1090-1094). -/
def mainDescriptors : List IDLDescriptor :=
  [⟨"implicit_jscontext", true⟩, ⟨"nostdcall", true⟩,
   ⟨"notxpcom", true⟩, ⟨"optional_argc", true⟩]

/-! ### Diff-header parsers (checkiid.py lines 492-559) -/

/-- Parser for `(([a-zA-Z0-9]+/)+([a-zA-Z0-9]+\.idl))` after at least one
segment has been consumed; a segment is an alphanumeric run followed by `/`,
the final component is an alphanumeric run followed by `.idl`.  The two
alternatives are distinguished deterministically by the character following
the run, so no backtracking is needed.  Fuel bounds the recursion. -/
def parseIdlPathAux : Nat → List Char → Option (List Char × List Char)
  | 0, _ => none
  | fuel + 1, cs =>
    let r := cs.takeWhile isAlnumChar
    if r.isEmpty then none
    else
      match cs.drop r.length with
      | '/' :: rest2 =>
        (match parseIdlPathAux fuel rest2 with
         | some (p, rem) => some (r ++ '/' :: p, rem)
         | none => none)
      | rest =>
        if ".idl".toList.isPrefixOf rest then some (r ++ ".idl".toList, rest.drop 4)
        else none

/-- Top-level path parser: requires at least one `seg/` before the final
`name.idl` component, as the regex `(([a-zA-Z0-9]+/)+([a-zA-Z0-9]+\.idl))`
does. -/
def parseIdlPath (cs : List Char) : Option (List Char × List Char) :=
  let r := cs.takeWhile isAlnumChar
  if r.isEmpty then none
  else
    match cs.drop r.length with
    | '/' :: rest2 =>
      (match parseIdlPathAux (cs.length + 1) rest2 with
       | some (p, rem) => some (r ++ '/' :: p, rem)
       | none => none)
    | _ => none

/-- `os.path.join` for the shapes that occur here (the second component never
starts with a separator). -/
def pyPathJoin (root p : String) : String :=
  if root.isEmpty then p
  else if root.toList.getLast? = some '/' then root ++ p
  else root ++ "/" ++ p

/-- `extractIDLFilePath` (line 492): matches
`^diff\ --git\ a/(<idlpath>)\ b/(<idlpath>)` and joins group 4 (the `b/`
path) with the root. -/
def extractIDLFilePath (cs : List Char) (root : String) : Option String :=
  if "diff --git a/".toList.isPrefixOf cs then
    match parseIdlPath (cs.drop 13) with
    | some (_, rest1) =>
      if " b/".toList.isPrefixOf rest1 then
        match parseIdlPath (rest1.drop 3) with
        | some (p2, _) => some (pyPathJoin root (String.mk p2))
        | none => none
      else none
    | none => none
  else none

/-- Leftmost `re.search("([a-zA-Z0-9]+\.idl)")`: first position whose
alphanumeric run is followed by `.idl`. -/
def scanIdlName : List Char → Option String
  | [] => none
  | c :: t =>
    let r := (c :: t).takeWhile isAlnumChar
    if !r.isEmpty && ".idl".toList.isPrefixOf ((c :: t).drop r.length)
    then some (String.mk (r ++ ".idl".toList))
    else scanIdlName t

/-- `extractIDLFileName` (line 512). -/
def extractIDLFileName (cs : List Char) : Option String :=
  match extractIDLFilePath cs "" with
  | some path => if path.isEmpty then none else scanIdlName path.toList
  | none => none

/-- `isStartOfIDLFile` (line 358), with Python truthiness on the name. -/
def isStartOfIDLFile (cs : List Char) : Bool :=
  pyTruthy (extractIDLFileName cs)

/-- Tail of `isLineStartOfNewFile`'s regex after `diff --git a/`:
`([a-zA-Z0-9]+/)+([a-zA-Z0-9]+\.[a-zA-Z0-9])+` (one final unit suffices for a
boolean match). -/
def newFileTail : Nat → List Char → Bool → Bool
  | 0, _, _ => false
  | fuel + 1, cs, seenSeg =>
    let r := cs.takeWhile isAlnumChar
    if r.isEmpty then false
    else
      match cs.drop r.length with
      | '/' :: rest2 => newFileTail fuel rest2 true
      | '.' :: c2 :: _ => seenSeg && isAlnumChar c2
      | _ => false

/-- `isLineStartOfNewFile` (line 555). -/
def isLineStartOfNewFile (cs : List Char) : Bool :=
  "diff --git a/".toList.isPrefixOf cs && newFileTail (cs.length + 1) (cs.drop 13) false

/-! ### Interface-name extraction (checkiid.py lines 610-713) -/

/-- The common part of `extractInterfaceName`'s regex after the optional
prefix: `(\s)*interface(\s)+(.*)(\s)*\:(\s)*(.*)`.  The greedy group 3 runs
up to the last `:` of the line; the function returns it right-stripped. -/
def interfaceNameAfterKeyword (cs : List Char) : Option String :=
  let cs1 := cs.dropWhile isSpaceChar
  if "interface".toList.isPrefixOf cs1 then
    let cs2 := cs1.drop 9
    match cs2 with
    | c :: _ =>
      if isSpaceChar c then
        let cs3 := cs2.dropWhile isSpaceChar
        match lastIdxOf ':' cs3 with
        | some k => some (String.mk (rstripList (cs3.take k)))
        | none => none
      else none
    | [] => none
  else none

/-- `extractInterfaceName` with prefix `[\+,\-]` (note: the character class
contains `+`, `,` and `-`). -/
def extractInterfaceNamePatch (cs : List Char) : Option String :=
  match cs with
  | c :: t =>
    if c = '+' || c = ',' || c = '-' then interfaceNameAfterKeyword t else none
  | [] => none

/-- `extractInterfaceNameFromDefinitionLine` (line 659): the patch-prefixed
extraction is preferred when truthy (a `""` result falls through). -/
def extractInterfaceNameFromDefinitionLine (cs : List Char) : Option String :=
  match extractInterfaceNamePatch cs with
  | some s => if s.isEmpty then interfaceNameAfterKeyword cs else some s
  | none => interfaceNameAfterKeyword cs

/-- `isInterfaceDefinitionLine` (line 610): a truthy extracted name, and the
right-stripped line must be non-empty and not end in `;`. -/
def isInterfaceDefinitionLine (cs : List Char) : Bool :=
  match extractInterfaceNameFromDefinitionLine cs with
  | some s =>
    if s.isEmpty then false
    else
      match (rstripList cs).getLast? with
      | some c => !(c = ';')
      | none => false
  | none => false

/-- Candidate scan for the second `@@` of the context regex
`^@@(\s)+(.*)(\s)+@@(\s)*interface...`: candidates are tried in descending
position order (greedy group 2), and a candidate succeeds when it is
preceded by whitespace and the remainder matches the interface pattern. -/
def ctxIfaceFind (t : List Char) : List Nat → Option String
  | [] => none
  | k :: ks =>
    if decide (2 ≤ k) && "@@".toList.isPrefixOf (t.drop k) &&
        (match t.get? (k - 1) with | some d => isSpaceChar d | none => false) then
      match interfaceNameAfterKeyword (t.drop (k + 2)) with
      | some s => some s
      | none => ctxIfaceFind t ks
    else ctxIfaceFind t ks

/-- `extractInterfaceNameFromContextLine` (line 673). -/
def extractInterfaceNameFromContextLine (cs : List Char) : Option String :=
  match cs with
  | '@' :: '@' :: t =>
    (match t with
     | c :: _ =>
       if isSpaceChar c then ctxIfaceFind t ((List.range (t.length + 1)).reverse)
       else none
     | [] => none)
  | _ => none

/-- `isInterfaceContextLine` (line 633). -/
def isInterfaceContextLine (cs : List Char) : Bool :=
  pyTruthy (extractInterfaceNameFromContextLine cs)

/-! ### Hunk-header line number (checkiid.py line 683) -/

/-- Positions of characters satisfying `p`, in descending order (greedy). -/
def idxsDesc (cs : List Char) (p : Char → Bool) : List Nat :=
  ((List.range cs.length).filter
    (fun i => match cs.get? i with | some d => p d | none => false)).reverse

/-- Existence of a match for the tail `(.*)(\s)+@@` of the hunk regex. -/
def ctxNumTail3 (rest3 : List Char) : Bool :=
  (List.range (rest3.length + 1)).any (fun k =>
    decide (1 ≤ k) && "@@".toList.isPrefixOf (rest3.drop k) &&
      (match rest3.get? (k - 1) with | some d => isSpaceChar d | none => false))

/-- Existence of a match for `(.*),(.*)(\s)+@@` (the `+c,d @@` part). -/
def ctxNumTail2 (rest2 : List Char) : Bool :=
  (idxsDesc rest2 (· = ',')).any (fun c => ctxNumTail3 (rest2.drop (c + 1)))

/-- Existence of a match for `(.*)(\s)+\+` followed by `ctxNumTail2`. -/
def ctxNumTail1 (rest1 : List Char) : Bool :=
  (idxsDesc rest1 (· = '+')).any (fun p =>
    decide (1 ≤ p) &&
      (match rest1.get? (p - 1) with | some d => isSpaceChar d | none => false) &&
      ctxNumTail2 (rest1.drop (p + 1)))

/-- Attempt to match `@@(\s)+\-(.*),(.*)(\s)+\+(.*),(.*)(\s)+@@` at the head
of `cs`; returns the greedy group 2 on success. -/
def ctxNumFromStart (cs : List Char) : Option (List Char) :=
  match cs with
  | '@' :: '@' :: t =>
    (match t with
     | c :: _ =>
       if isSpaceChar c then
         match t.dropWhile isSpaceChar with
         | '-' :: u =>
           (idxsDesc u (· = ',')).findSome? (fun a =>
             if ctxNumTail1 (u.drop (a + 1)) then some (u.take a) else none)
         | _ => none
       else none
     | [] => none)
  | _ => none

/-- Leftmost `re.search` over all start positions. -/
def ctxNumSearch : List Char → Option (List Char)
  | [] => none
  | c :: t =>
    match ctxNumFromStart (c :: t) with
    | some a => some a
    | none => ctxNumSearch t

/-- `extractLineNumberFromContext` (line 683): `int(group(2)) - 1` when the
regex matches (a non-numeric group raises `ValueError`), `0` otherwise. -/
def extractLineNumberFromContext (cs : List Char) : Except PyErr Int :=
  match ctxNumSearch cs with
  | none => .ok 0
  | some a =>
    match pyInt a with
    | some n => .ok (n - 1)
    | none => .error .valueError

/-! ### Special blocks (checkiid.py lines 159-349) -/

/-- `containsSpecialBlock` for the comment type: `/*` and a later `*/`. -/
def commentContainsBlock (cs : List Char) : Bool :=
  match findSubIdx "/*".toList cs with
  | some i => containsSub "*/".toList (cs.drop (i + 2))
  | none => false

/-- `isStartOfSpecialBlock` for the comment type: `^(\s)*\/\*`. -/
def commentIsStart (cs : List Char) : Bool :=
  "/*".toList.isPrefixOf (cs.dropWhile isSpaceChar)

/-- `isEndOfSpecialBlock` for the comment type: `(.*)\*\/(\s)*$`. -/
def commentIsEnd (cs : List Char) : Bool :=
  "*/".toList.isSuffixOf (rstripList cs)

/-- `isStartOfSpecialBlock` for the C++ escape type: `^(\s)*\%{\s*C\+\+`. -/
def cppIsStart (cs : List Char) : Bool :=
  match cs.dropWhile isSpaceChar with
  | '%' :: '{' :: t => "C++".toList.isPrefixOf (t.dropWhile isSpaceChar)
  | _ => false

/-- `isEndOfSpecialBlock` for the C++ escape type: `(.*)\%\}(\s)*$`. -/
def cppIsEnd (cs : List Char) : Bool :=
  "%\x7d".toList.isSuffixOf (rstripList cs)

/-- The two `SpecialBlockType` objects created by
`findAllSpecialBlocksForFile`; `==` on them is object identity. -/
inductive BlockKind where
  | comment
  | cpp
deriving DecidableEq

/-- Outcome of one loop iteration of `findAllSpecialBlocksForFile`: either
the ranges emitted by the line plus the new stack, or an uncaught exception
together with the ranges already emitted on this line. -/
inductive ScanStep where
  | next (emit : List (Int × Int)) (stack : List (BlockKind × Int))
  | crash (emit : List (Int × Int)) (e : PyErr)

/-- The C++-type half of the loop body (lines 324-343).  An end token with an
empty stack logs but does NOT skip, then pops the empty stack (IndexError);
a mismatched popped type reaches `blockStack.push`, which does not exist on
Python lists (AttributeError). -/
def scanCppPart (l : List Char) (n : Int) (stack : List (BlockKind × Int))
    (emitted : List (Int × Int)) : ScanStep :=
  let stack1 := if cppIsStart l then (BlockKind.cpp, n) :: stack else stack
  if cppIsEnd l then
    match stack1 with
    | [] => .crash emitted .indexError
    | (k, m) :: stack2 =>
      if k = BlockKind.cpp then .next (emitted ++ [(m, n)]) stack2
      else .crash emitted .attributeError
  else .next emitted stack1

/-- One loop iteration of `findAllSpecialBlocksForFile` (lines 285-343).  A
same-line comment block skips the line; a comment-end with empty stack
`continue`s (skipping the C++ checks); a mismatched comment pop reaches
`blockStack.push` (AttributeError). -/
def processScanLine (l : List Char) (n : Int) (stack : List (BlockKind × Int)) : ScanStep :=
  if commentContainsBlock l then .next [] stack
  else
    let stack1 := if commentIsStart l then (BlockKind.comment, n) :: stack else stack
    if commentIsEnd l then
      match stack1 with
      | [] => .next [] stack1
      | (k, m) :: stack2 =>
        if k = BlockKind.comment then scanCppPart l n stack2 [(m, n)]
        else .crash [] .attributeError
    else scanCppPart l n stack1 []

/-- The scan loop: returns the ranges appended to the map entry in order,
plus the exception that aborted the scan, if any. -/
def scanLinesGo : List String → Int → List (BlockKind × Int) → List (Int × Int) × Option PyErr
  | [], _, _ => ([], none)
  | l :: rest, n, stack =>
    match processScanLine l.toList (n + 1) stack with
    | .next em st =>
      let r := scanLinesGo rest (n + 1) st
      (em ++ r.1, r.2)
    | .crash em e => (em, some e)

/-- The whole-file scan of `findAllSpecialBlocksForFile`, starting at line 0
with an empty stack. -/
def scanSpecialBlocks (lines : List String) : List (Int × Int) × Option PyErr :=
  scanLinesGo lines 0 []

/-- The on-disk tree: maps a path to the file's lines, or `none` when
`open` would raise. -/
abbrev FileSystem := String → Option (List String)

/-- The global `gFilePathToCommentRangeMap`, keyed by the (possibly `None`)
path value. -/
abbrev RangeCache := List (Option String × List (Int × Int))

/-- Association-list lookup (Python `dict` read). -/
def alookup {ν : Type} : List (Option String × ν) → Option String → Option ν
  | [], _ => none
  | (k, v) :: t, key => if k = key then some v else alookup t key

/-- Association-list insert/overwrite (Python `dict` write). -/
def ainsert {ν : Type} : List (Option String × ν) → Option String → ν → List (Option String × ν)
  | [], key, v => [(key, v)]
  | (k, w) :: t, key, v => if k = key then (key, v) :: t else (k, w) :: ainsert t key v

/-- `SpecialBlockRange.findAllSpecialBlocksForFile` (line 265): the map entry
is created (empty) BEFORE the file is opened, so a failed `open` leaves an
empty range list cached; ranges are appended to the entry as the scan runs,
so a crashed scan leaves the partial list cached. -/
def findAllSpecialBlocksForFile (fs : FileSystem) (cache : RangeCache)
    (path : Option String) : RangeCache × Option PyErr :=
  let base := (alookup cache path).getD []
  let cache1 := if (alookup cache path).isSome then cache else ainsert cache path []
  match (match path with | none => none | some p => fs p) with
  | none => (cache1, some .ioError)
  | some lines =>
    let r := scanSpecialBlocks lines
    (ainsert cache1 path (base ++ r.1), r.2)

/-- `SpecialBlockRange.getRangesForFilePath` (line 249). -/
def getRangesForFilePath (fs : FileSystem) (cache : RangeCache)
    (path : Option String) : Except PyErr (List (Int × Int)) × RangeCache :=
  match alookup cache path with
  | some rs => (.ok rs, cache)
  | none =>
    match findAllSpecialBlocksForFile fs cache path with
    | (cache1, some e) => (.error e, cache1)
    | (cache1, none) =>
      match alookup cache1 path with
      | some rs => (.ok rs, cache1)
      | none => (.error .keyError, cache1)

/-- The `^[\+\-](\s)*\/\/` check of `isLineComment`. -/
def commentSlashMatch (cs : List Char) : Bool :=
  match cs with
  | c :: t => (c = '+' || c = '-') && "//".toList.isPrefixOf (t.dropWhile isSpaceChar)
  | [] => false

/-- `isLineComment` (line 583); the range lookup may raise, which the caller
in `parsePatch` catches. -/
def isLineComment (fs : FileSystem) (cache : RangeCache) (cs : List Char)
    (num : Int) (path : Option String) : Except PyErr Bool × RangeCache :=
  if !isLineChange cs then (.ok false, cache)
  else if commentSlashMatch cs then (.ok true, cache)
  else
    match getRangesForFilePath fs cache path with
    | (.ok ranges, cache1) => (.ok (ranges.any (fun r => r.1 ≤ num && num ≤ r.2)), cache1)
    | (.error e, cache1) => (.error e, cache1)

/-! ### Rename detection (checkiid.py lines 383-428) -/

/-- Python list indexing, including negative indices and IndexError. -/
def pyIndex {α : Type} (l : List α) (i : Int) : Except PyErr α :=
  if 0 ≤ i then
    match l.get? i.toNat with
    | some x => .ok x
    | none => .error .indexError
  else if 0 ≤ i + l.length then
    match l.get? (i + l.length).toNat with
    | some x => .ok x
    | none => .error .indexError
  else .error .indexError

/-- The `while (counter <= end)` loop of `isLineInterfaceRename`: note the
INCLUSIVE bound, so the loop indexes one past `end` when the name is never
found before that.  The fuel argument is `(endI + 1 - counter).toNat`, which
is zero exactly when `counter > endI`, so the fuel pattern reproduces the
loop condition exactly while keeping the recursion structural. -/
def renameLoopGo (name : String) (lines : List String) :
    Nat → Int → Int → Except PyErr Bool
  | 0, _, _ => .ok true
  | fuel + 1, counter, endI =>
    match pyIndex lines counter with
    | .error e => .error e
    | .ok l =>
      if containsSub name.toList l.toList then .ok false
      else renameLoopGo name lines fuel (counter + 1) endI

/-- The loop entry of `isLineInterfaceRename`, with the fuel computed from
the bounds. -/
def renameLoop (name : String) (lines : List String) (counter endI : Int) :
    Except PyErr Bool :=
  renameLoopGo name lines (endI + 1 - counter).toNat counter endI

/-- `isLineInterfaceRename` (line 383).  A `None` lower bound makes the loop
counter `None`, which raises TypeError when used to index. -/
def isLineInterfaceRename (fs : FileSystem) (aLine : List Char)
    (aCurrentInterface : Option String) (aIDLFilePath : Option String)
    (aLineRange : Option (Option Int × Int)) : Except PyErr Bool :=
  if !pyTruthy aIDLFilePath then .ok false
  else if !pyTruthy aCurrentInterface then .ok false
  else if !isInterfaceDefinitionLine aLine then .ok false
  else
    match aIDLFilePath with
    | none => .ok false
    | some p =>
      match fs p with
      | none => .ok false
      | some idlLines =>
        match aLineRange with
        | none => renameLoop (aCurrentInterface.getD "") idlLines 0 idlLines.length
        | some (startO, endI) =>
          match startO with
          | none => .error .typeError
          | some s => renameLoop (aCurrentInterface.getD "") idlLines s endI

/-! ### `updateFileMetadata` (checkiid.py line 782) -/

def updateFileMetadata (line : List Char) (prev : Int) (lastRem : Bool) : Int × Bool :=
  let cur := prev + 1
  if isLineChange line then
    if isAdditionLine line && lastRem then (cur - 1, false)
    else if isRemovalLine line then (prev, true)
    else (cur, false)
  else (cur, false)

/-! ### `parsePatch` (checkiid.py lines 812-1029) -/

/-- The parameters `parsePatch` reads from its arguments and from module
globals: the on-disk tree, the repository root, and `gDescriptorList`. -/
structure Config where
  fs : FileSystem
  rootPath : String
  descriptors : List IDLDescriptor

/-- The local variables of `parsePatch`, plus the global comment-range
cache.  `currentIDLFileWasDeleted` and `currentIDLPath` are only assigned
inside branches, so `none` at the outer layer models an unbound local
(reading it raises NameError). -/
structure PState where
  currentIDLFile : Option String
  changedIDLFilePaths : List (Option String)
  changedIDLFileNames : List (Option String)
  revvedInterfaces : List (Option String)
  interfacesRequiringNewIID : List (Option String)
  interfaceNameIDLMap : List (Option String × Option String)
  currentInterfaceName : Option String
  previousInterfaceName : Option String
  needInterfaceName : Bool
  foundIIDChangeLine : Bool
  fileWarningsIssued : List (Option String)
  interfaceMayBeRemoved : Bool
  lastUUIDChangeLineSeen : Option Int
  currentInterfaceWasRenamed : Bool
  currentLineNumber : Int
  lastLineWasRemoval : Bool
  lineNo : Int
  currentIDLFileWasDeleted : Option Bool
  currentIDLPath : Option (Option String)
  cache : RangeCache
deriving DecidableEq

/-- The state at the top of `parsePatch` (lines 815-837), with an empty
global comment-range cache. -/
def initialState : PState where
  currentIDLFile := none
  changedIDLFilePaths := []
  changedIDLFileNames := []
  revvedInterfaces := []
  interfacesRequiringNewIID := []
  interfaceNameIDLMap := []
  currentInterfaceName := none
  previousInterfaceName := none
  needInterfaceName := false
  foundIIDChangeLine := false
  fileWarningsIssued := []
  interfaceMayBeRemoved := false
  lastUUIDChangeLineSeen := none
  currentInterfaceWasRenamed := false
  currentLineNumber := -1
  lastLineWasRemoval := false
  lineNo := 0
  currentIDLFileWasDeleted := none
  currentIDLPath := none
  cache := []

/-- Lines 840-859: line counter, cursor update, IDL-start and addition
resets, interface-name need, and the deletion marker.  The straight-line
assignments of the source are written as one simultaneous record update;
none of them reads a field an earlier one wrote (the needInterfaceName test
reads `currentInterfaceName`, untouched here), and the deletion-marker
assignment is ordered after the IDL-start one as in the source. -/
def stepEarly (line : List Char) (st : PState) : PState :=
  { st with
    lineNo := st.lineNo + 1,
    currentLineNumber := (updateFileMetadata line st.currentLineNumber st.lastLineWasRemoval).1,
    lastLineWasRemoval := (updateFileMetadata line st.currentLineNumber st.lastLineWasRemoval).2,
    interfaceMayBeRemoved :=
      if isStartOfIDLFile line || isAdditionLine line then false else st.interfaceMayBeRemoved,
    currentInterfaceWasRenamed :=
      if isStartOfIDLFile line then false else st.currentInterfaceWasRenamed,
    needInterfaceName := if pyTruthy st.currentInterfaceName then st.needInterfaceName else true,
    currentIDLFileWasDeleted :=
      if doesLineSignifyDeletion line then some true
      else if isStartOfIDLFile line then some false
      else st.currentIDLFileWasDeleted }

/-- Lines 877-912: entering a new non-IDL file or a new IDL file.  The two
branches are exclusive (`idlStart` negates the first guard), so the IDL
branch reads the incoming state directly; the sequential list appends and
flag assignments of the source become one simultaneous update, no assignment
reading a field an earlier one wrote. -/
def filePhase (cfg : Config) (line : List Char) (st : PState) : PState :=
  if isStartOfIDLFile line then
    { st with
      lastUUIDChangeLineSeen := none,
      currentIDLFile := extractIDLFileName line,
      currentIDLPath := some (extractIDLFilePath line cfg.rootPath),
      changedIDLFilePaths :=
        if extractIDLFilePath line cfg.rootPath ∈ st.changedIDLFilePaths
        then st.changedIDLFilePaths
        else st.changedIDLFilePaths ++ [extractIDLFilePath line cfg.rootPath],
      changedIDLFileNames :=
        if extractIDLFileName line ∈ st.changedIDLFileNames
        then st.changedIDLFileNames
        else st.changedIDLFileNames ++ [extractIDLFileName line],
      needInterfaceName := true,
      previousInterfaceName := st.currentInterfaceName,
      currentInterfaceName := none,
      foundIIDChangeLine := false }
  else if isLineStartOfNewFile line then
    { st with lastUUIDChangeLineSeen := none, currentInterfaceWasRenamed := false,
              previousInterfaceName := st.currentInterfaceName, currentInterfaceName := none }
  else st

/-- Lines 914-927: identifier addition/definition handling. -/
def iidPhase (line : List Char) (st : PState) : PState :=
  if isLineIIDAddition line then
    { st with needInterfaceName := true, previousInterfaceName := st.currentInterfaceName,
              currentInterfaceName := none, foundIIDChangeLine := true }
  else if isLineIIDDefinition line then
    { st with
      interfaceMayBeRemoved := if isRemovalLine line then true else st.interfaceMayBeRemoved,
      needInterfaceName := true, previousInterfaceName := st.currentInterfaceName,
      currentInterfaceName := none, foundIIDChangeLine := false }
  else st

/-- Lines 931-951: capturing a needed interface name from a definition line,
recording a revved interface, and mapping the name to its IDL file. -/
def defPhase (line : List Char) (st : PState) : PState :=
  if st.needInterfaceName && isInterfaceDefinitionLine line then
    { st with
      currentInterfaceName := extractInterfaceNameFromDefinitionLine line,
      revvedInterfaces :=
        if st.foundIIDChangeLine
        then st.revvedInterfaces ++ [extractInterfaceNameFromDefinitionLine line]
        else st.revvedInterfaces,
      foundIIDChangeLine := if st.foundIIDChangeLine then false else st.foundIIDChangeLine,
      needInterfaceName := false,
      interfaceNameIDLMap :=
        ainsert st.interfaceNameIDLMap (extractInterfaceNameFromDefinitionLine line)
          st.currentIDLFile }
  else st

/-- Lines 956-960: rename detection.  Reading the possibly-unbound
`currentIDLPath` raises NameError; a positive result evaluates a debug
message that concatenates `currentInterfaceName` (TypeError on `None`). -/
def renamePhase (cfg : Config) (line : List Char) (st : PState) : Except PyErr PState :=
  if !st.needInterfaceName && isInterfaceDefinitionLine line then
    match st.currentIDLPath with
    | none => .error .nameError
    | some p =>
      match isLineInterfaceRename cfg.fs line st.previousInterfaceName p
          (some (st.lastUUIDChangeLineSeen, st.currentLineNumber + 1)) with
      | .error e => .error e
      | .ok b =>
        if b then
          match st.currentInterfaceName with
          | none => .error .typeError
          | some _ => .ok { st with currentInterfaceWasRenamed := true }
        else .ok st
  else .ok st

/-- Lines 962-977: context lines reset the cursor (possibly raising
ValueError) and may switch the current interface. -/
def contextPhase (line : List Char) (st : PState) : Except PyErr PState :=
  if isContextLine line then
    match extractLineNumberFromContext line with
    | .error e => .error e
    | .ok n =>
      let st1 := { st with currentLineNumber := n }
      if isInterfaceContextLine line then
        let name := extractInterfaceNameFromContextLine line
        .ok { st1 with currentInterfaceName := name,
                       interfaceNameIDLMap := ainsert st1.interfaceNameIDLMap name st1.currentIDLFile }
      else .ok st1
  else .ok st

/-- The decision of line 1007. -/
def verdictCondition (binaryCompat renamed descr iidRemoval cmt constEx change : Bool)
    (cur : Option String) : Bool :=
  binaryCompat ||
    (!renamed && !descr && !iidRemoval && !cmt && !constEx && change && pyTruthy cur)

/-- Lines 1008-1020 when the condition holds: the debug message on line 1009
concatenates `currentInterfaceName` (TypeError when it is `None`), then the
name is appended unless already present. -/
def verdictCore (cond : Bool) (cur : Option String) (req : List (Option String)) :
    Except PyErr (List (Option String)) :=
  if cond then
    match cur with
    | none => .error .typeError
    | some s => .ok (if (some s) ∈ req then req else req ++ [some s])
  else .ok req

/-- Lines 979-1020: identifier-removal bookkeeping, the comment check with
its try/except, the once-per-file warning, and the verdict.  The
intermediate assignments touch only `lastUUIDChangeLineSeen`, the cache and
the warning list, so the condition and the verdict read the incoming state's
fields directly, as the source does. -/
def verdictPhase (cfg : Config) (line : List Char) (st : PState) : Except PyErr PState :=
  let iidRem := isLineIIDRemoval line
  let cmtRes :=
    match st.currentIDLPath with
    | none => (Except.error PyErr.nameError, st.cache)
    | some p => isLineComment cfg.fs st.cache line st.currentLineNumber p
  let cmt := match cmtRes.1 with | .ok b => b | .error _ => false
  let shouldWarn := match cmtRes.1 with | .ok _ => false | .error _ => true
  let cond := verdictCondition
    (areDescriptorsInLineAffectingBinaryCompat cfg.descriptors line)
    st.currentInterfaceWasRenamed (hasDescriptorsInLine cfg.descriptors line)
    iidRem cmt (isLineConstantExpression line) (isLineChange line)
    st.currentInterfaceName
  match verdictCore cond st.currentInterfaceName st.interfacesRequiringNewIID with
  | .error e => .error e
  | .ok req =>
    .ok { st with
      lastUUIDChangeLineSeen :=
        if iidRem then some st.currentLineNumber else st.lastUUIDChangeLineSeen,
      cache := cmtRes.2,
      fileWarningsIssued :=
        if shouldWarn && !(st.fileWarningsIssued.contains st.currentIDLFile)
        then st.fileWarningsIssued ++ [st.currentIDLFile]
        else st.fileWarningsIssued,
      interfacesRequiringNewIID := req }

/-- Lines 1022-1027: retract a pure removal when its closing brace is seen. -/
def removalPhase (line : List Char) (st : PState) : PState :=
  if isEndOfInterfaceRemoval line && st.interfaceMayBeRemoved then
    if st.currentInterfaceName ∈ st.interfacesRequiringNewIID then
      { st with interfacesRequiringNewIID := st.interfacesRequiringNewIID.erase st.currentInterfaceName,
                interfaceMayBeRemoved := false }
    else st
  else st

/-- Lines 877-1027: the part of the loop body reached by lines that are not
skipped. -/
def stepMain (cfg : Config) (st : PState) (line : List Char) : Except PyErr PState :=
  let st1 := filePhase cfg line st
  let st2 := iidPhase line st1
  let st3 := defPhase line st2
  match renamePhase cfg line st3 with
  | .error e => .error e
  | .ok st4 =>
    match contextPhase line st4 with
    | .error e => .error e
    | .ok st5 =>
      match verdictPhase cfg line st5 with
      | .error e => .error e
      | .ok st6 => .ok (removalPhase line st6)

/-- One full iteration of the `for line in aInputPatch` loop.  Reading the
possibly-unbound `currentIDLFileWasDeleted` (line 861) raises NameError; a
deleted file or an empty-content change line skips the rest of the body. -/
def stepLine (cfg : Config) (st : PState) (line : List Char) : Except PyErr PState :=
  let st1 := stepEarly line st
  match st1.currentIDLFileWasDeleted with
  | none => .error .nameError
  | some deleted =>
    if deleted then .ok st1
    else
      if isLineChange line then
        match extractContentFromChangeLine line with
        | none => .error .attributeError
        | some c =>
          if (rstripList c).isEmpty then .ok st1
          else stepMain cfg st1 line
      else stepMain cfg st1 line

/-- The traversal from a given state. -/
def parsePatchFrom (cfg : Config) (st : PState) : List String → Except PyErr PState
  | [] => .ok st
  | l :: rest =>
    match stepLine cfg st l.toList with
    | .error e => .error e
    | .ok st2 => parsePatchFrom cfg st2 rest

/-- The triple `parsePatch` returns (line 1029). -/
structure ParseResult where
  interfacesRequiringNewIID : List (Option String)
  revvedInterfaces : List (Option String)
  interfaceNameIDLMap : List (Option String × Option String)
deriving DecidableEq

/-- `parsePatch` (line 812). -/
def parsePatch (cfg : Config) (patch : List String) : Except PyErr ParseResult :=
  (parsePatchFrom cfg initialState patch).map fun st =>
    ⟨st.interfacesRequiringNewIID, st.revvedInterfaces, st.interfaceNameIDLMap⟩

/-! ## Claim theorems -/

/-- C2 (code bug): `areDescriptorsInLineAffectingBinaryCompat` is claimed to
return true iff some registered descriptor token is present in the line AND
some registered descriptor is flagged as affecting binary compatibility.
The code tests `desc.affectsBinaryCompatibility` — a method object, always
truthy — instead of calling it, so with a registry whose only descriptor is
flagged `False` and a line carrying that descriptor, the function still
returns true while the documented behaviour returns false. -/
theorem c2_binary_compat_flag_ignored :
    hasDescriptorsInLine [⟨"foo", false⟩] "+[foo] long bar();".toList = true ∧
    areDescriptorsInLineAffectingBinaryCompat [⟨"foo", false⟩] "+[foo] long bar();".toList = true ∧
    areDescriptorsInLineAffectingBinaryCompatDoc [⟨"foo", false⟩] "+[foo] long bar();".toList = false := by
  exact ⟨rfl, rfl, rfl⟩

/-- C3 (code bug): the block-range scan is claimed never to raise, to skip a
block-end token seen on an empty stack, and to push back a mismatched popped
entry.  In fact a `%}` end token with an empty stack logs but still pops
(IndexError, the branch lacks the `continue` the comment-type branch has),
and the mismatch branches call `blockStack.push`, which does not exist on
Python lists (AttributeError).  Both crashes are exhibited here on concrete
files. -/
theorem c3_blockscan_crashes :
    findAllSpecialBlocksForFile (fun p => if p = "a.idl" then some ["%\x7d"] else none)
      [] (some "a.idl") = ([(some "a.idl", [])], some .indexError) ∧
    findAllSpecialBlocksForFile (fun p => if p = "b.idl" then some ["/*", "%\x7d"] else none)
      [] (some "b.idl") = ([(some "b.idl", [])], some .attributeError) := by
  exact ⟨rfl, rfl⟩

/-- C5 (code bug): `isLineInterfaceRename` is claimed to return a boolean
without raising, accessing only in-bounds line indices.  The loop bound
`while counter <= end` is inclusive, so a whole-file search that never finds
the previous interface name indexes one past the end of the file
(IndexError); and a `None` lower bound (as passed by the driver before any
identifier removal has been seen) makes the counter `None` (TypeError). -/
theorem c5_rename_raises :
    isLineInterfaceRename
      (fun p => if p = "/r/a.idl" then some ["interface nsIBar : nsISupports \x7b", "\x7d"] else none)
      "+interface nsIBar : nsISupports \x7b".toList (some "nsIFoo") (some "/r/a.idl") none
      = .error .indexError ∧
    isLineInterfaceRename (fun p => if p = "/r/a.idl" then some ["x"] else none)
      "+interface nsIBar : nsISupports \x7b".toList (some "nsIFoo") (some "/r/a.idl")
      (some (none, 0)) = .error .typeError := by
  exact ⟨rfl, rfl⟩

/-- C8 (counterexample): the claim states `isAdditionLine l` holds iff `l`
starts with exactly one `+`.  The line `++a` starts with two `+` characters,
yet `isAdditionLine` accepts it (the code only rejects three leading `+`). -/
def startsWithExactlyOne (c : Char) (cs : List Char) : Bool :=
  match cs with
  | a :: rest =>
    (a = c) && (match rest with | b :: _ => !(b = c) | [] => true)
  | [] => false

/-- C8 counterexample: `++a` is accepted by `isAdditionLine` but does not
start with exactly one `+`. -/
theorem c8_counterexample :
    isAdditionLine "++a".toList = true ∧
    startsWithExactlyOne '+' "++a".toList = false := by
  exact ⟨rfl, rfl⟩

/-- A one-character prefix test is a head test. -/
lemma singleton_isPrefixOf_iff (c : Char) (cs : List Char) :
    ([c].isPrefixOf cs) = true ↔ cs.head? = some c := by
  cases cs with
  | nil => simp [List.isPrefixOf]
  | cons a t =>
    simp [List.isPrefixOf]
    exact eq_comm

/-- A three-character prefix test is a `take 3` test. -/
lemma triple_isPrefixOf_iff (c : Char) (cs : List Char) :
    ([c, c, c].isPrefixOf cs) = true ↔ cs.take 3 = [c, c, c] := by
  rcases cs with _ | ⟨a, _ | ⟨b, _ | ⟨d, t⟩⟩⟩ <;> simp [List.isPrefixOf]
  exact ⟨fun ⟨x, y, z⟩ => ⟨x.symm, y.symm, z.symm⟩,
         fun ⟨x, y, z⟩ => ⟨x.symm, y.symm, z.symm⟩⟩

/-- Marker-line characterization: `isAdditionLine` over an explicit head and
three-character prefix. -/
lemma addition_iff (cs : List Char) :
    isAdditionLine cs = true ↔ cs.head? = some '+' ∧ cs.take 3 ≠ ['+', '+', '+'] := by
  unfold isAdditionLine
  rw [Bool.and_eq_true, Bool.not_eq_true', singleton_isPrefixOf_iff]
  constructor
  · rintro ⟨h1, h2⟩
    refine ⟨h1, fun hC => ?_⟩
    rw [← triple_isPrefixOf_iff] at hC
    rw [h2] at hC
    cases hC
  · rintro ⟨h1, h2⟩
    refine ⟨h1, ?_⟩
    cases hP : (['+', '+', '+'].isPrefixOf cs)
    · rfl
    · exact absurd ((triple_isPrefixOf_iff _ _).1 hP) h2

/-- Marker-line characterization for `isRemovalLine`. -/
lemma removal_iff (cs : List Char) :
    isRemovalLine cs = true ↔ cs.head? = some '-' ∧ cs.take 3 ≠ ['-', '-', '-'] := by
  unfold isRemovalLine
  rw [Bool.and_eq_true, Bool.not_eq_true', singleton_isPrefixOf_iff]
  constructor
  · rintro ⟨h1, h2⟩
    refine ⟨h1, fun hC => ?_⟩
    rw [← triple_isPrefixOf_iff] at hC
    rw [h2] at hC
    cases hC
  · rintro ⟨h1, h2⟩
    refine ⟨h1, ?_⟩
    cases hP : (['-', '-', '-'].isPrefixOf cs)
    · rfl
    · exact absurd ((triple_isPrefixOf_iff _ _).1 hP) h2

/-- A line starting with `+++` is neither an addition nor a removal. -/
lemma plus_header_not_change (cs : List Char)
    (hP : ['+', '+', '+'].isPrefixOf cs = true) : isLineChange cs = false := by
  have h3 : cs.take 3 = ['+', '+', '+'] := (triple_isPrefixOf_iff '+' cs).1 hP
  have hhead : cs.head? = some '+' := by
    rcases cs with _ | ⟨a, t⟩
    · simp at h3
    · simp [List.take] at h3 ⊢
      exact h3.1
  have hA : isAdditionLine cs = false := by
    cases h : isAdditionLine cs
    · rfl
    · exact absurd h3 ((addition_iff cs).1 h).2
  have hR : isRemovalLine cs = false := by
    cases h : isRemovalLine cs
    · rfl
    · have hm := ((removal_iff cs).1 h).1
      rw [hhead] at hm
      simp at hm
  simp [isLineChange, hA, hR]

/-- A line starting with `---` is neither an addition nor a removal. -/
lemma minus_header_not_change (cs : List Char)
    (hP : ['-', '-', '-'].isPrefixOf cs = true) : isLineChange cs = false := by
  have h3 : cs.take 3 = ['-', '-', '-'] := (triple_isPrefixOf_iff '-' cs).1 hP
  have hhead : cs.head? = some '-' := by
    rcases cs with _ | ⟨a, t⟩
    · simp at h3
    · simp [List.take] at h3 ⊢
      exact h3.1
  have hR : isRemovalLine cs = false := by
    cases h : isRemovalLine cs
    · rfl
    · exact absurd h3 ((removal_iff cs).1 h).2
  have hA : isAdditionLine cs = false := by
    cases h : isAdditionLine cs
    · rfl
    · have hm := ((addition_iff cs).1 h).1
      rw [hhead] at hm
      simp at hm
  simp [isLineChange, hA, hR]

/-- A change line starts with `+` or `-`, so it is never a `diff --git`
header, hence never an IDL-file start. -/
lemma change_not_idl_start {cs : List Char} (h : isLineChange cs = true) :
    isStartOfIDLFile cs = false := by
  have hhead : cs.head? = some '+' ∨ cs.head? = some '-' := by
    unfold isLineChange at h
    rcases Bool.or_eq_true_iff.1 h with hA | hR
    · exact Or.inl ((addition_iff cs).1 hA).1
    · exact Or.inr ((removal_iff cs).1 hR).1
  have hpre : ("diff --git a/".toList.isPrefixOf cs) = false := by
    rcases cs with _ | ⟨a, t⟩
    · simp at hhead
    · have ha : a = '+' ∨ a = '-' := by
        rcases hhead with hh | hh <;> simp at hh <;> [exact Or.inl hh; exact Or.inr hh]
      rcases ha with rfl | rfl <;> simp [List.isPrefixOf]
  unfold isStartOfIDLFile extractIDLFileName extractIDLFilePath
  rw [hpre]
  simp [pyTruthy]

/-- A change line starts with `+` or `-` but not `+++`, so it is never the
`+++ /dev/null` deletion marker. -/
lemma change_not_deletion {cs : List Char} (h : isLineChange cs = true) :
    doesLineSignifyDeletion cs = false := by
  cases hD : doesLineSignifyDeletion cs
  · rfl
  · exfalso
    have h3 : ['+', '+', '+'].isPrefixOf cs = true := by
      unfold doesLineSignifyDeletion at hD
      rcases cs with _ | ⟨a, _ | ⟨b, _ | ⟨c, t⟩⟩⟩ <;> simp [List.isPrefixOf] at hD ⊢
      obtain ⟨rfl, rfl, rfl, -⟩ := hD
      exact ⟨rfl, rfl, rfl⟩
    rw [plus_header_not_change cs h3] at h
    cases h

/-- An addition line is never a removal line. -/
lemma not_addition_and_removal (cs : List Char) :
    (isAdditionLine cs && isRemovalLine cs) = false := by
  cases hA : isAdditionLine cs
  · simp
  · cases hR : isRemovalLine cs
    · simp
    · have h1 := (addition_iff cs).1 hA
      have h2 := (removal_iff cs).1 hR
      have : some '+' = some '-' := h1.1.symm.trans h2.1
      simp at this

/-- C8 (amended): `isAdditionLine l` holds iff `l` starts with `+` but not
with `+++`, and `isRemovalLine l` holds iff `l` starts with `-` but not with
`---` (the code also tolerates two leading markers, unlike the claim's
"exactly one"). -/
theorem c8_amended_characterization : ∀ cs : List Char,
    (isAdditionLine cs = true ↔ cs.head? = some '+' ∧ cs.take 3 ≠ ['+', '+', '+']) ∧
    (isRemovalLine cs = true ↔ cs.head? = some '-' ∧ cs.take 3 ≠ ['-', '-', '-']) := by
  intro cs
  exact ⟨addition_iff cs, removal_iff cs⟩

/-- C9 (confirmed): no line is classified as both an addition and a removal,
and a diff file-header line (leading `+++` or `---`) is classified as
neither. -/
theorem c9_classification_exclusive : ∀ cs : List Char,
    (isAdditionLine cs && isRemovalLine cs) = false ∧
    (['+', '+', '+'].isPrefixOf cs && isLineChange cs) = false ∧
    (['-', '-', '-'].isPrefixOf cs && isLineChange cs) = false := by
  intro cs
  refine ⟨not_addition_and_removal cs, ?_, ?_⟩
  · cases hP : ['+', '+', '+'].isPrefixOf cs
    · simp
    · rw [plus_header_not_change cs hP]
      simp
  · cases hP : ['-', '-', '-'].isPrefixOf cs
    · simp
    · rw [minus_header_not_change cs hP]
      simp

/-! Helper lemmas: which phases leave `interfacesRequiringNewIID` alone. -/

lemma stepEarly_required (line : List Char) (st : PState) :
    (stepEarly line st).interfacesRequiringNewIID = st.interfacesRequiringNewIID := rfl

lemma filePhase_required (cfg : Config) (line : List Char) (st : PState) :
    (filePhase cfg line st).interfacesRequiringNewIID = st.interfacesRequiringNewIID := by
  simp only [filePhase]
  split_ifs <;> rfl

lemma iidPhase_required (line : List Char) (st : PState) :
    (iidPhase line st).interfacesRequiringNewIID = st.interfacesRequiringNewIID := by
  simp only [iidPhase]
  split_ifs <;> rfl

lemma defPhase_required (line : List Char) (st : PState) :
    (defPhase line st).interfacesRequiringNewIID = st.interfacesRequiringNewIID := by
  simp only [defPhase]
  split_ifs <;> rfl

lemma renamePhase_ok_required {cfg : Config} {line : List Char} {st st' : PState}
    (h : renamePhase cfg line st = .ok st') :
    st'.interfacesRequiringNewIID = st.interfacesRequiringNewIID := by
  simp only [renamePhase] at h
  split_ifs at h
  · split at h
    · exact absurd h (by simp)
    · split at h
      · exact absurd h (by simp)
      · split_ifs at h
        · split at h
          · exact absurd h (by simp)
          · simp only [Except.ok.injEq] at h
            subst h
            rfl
        · simp only [Except.ok.injEq] at h
          subst h
          rfl
  · simp only [Except.ok.injEq] at h
    subst h
    rfl

lemma contextPhase_ok_required {line : List Char} {st st' : PState}
    (h : contextPhase line st = .ok st') :
    st'.interfacesRequiringNewIID = st.interfacesRequiringNewIID := by
  simp only [contextPhase] at h
  split at h
  · split at h
    · exact absurd h (by simp)
    · split at h
      · simp only [Except.ok.injEq] at h
        subst h
        rfl
      · simp only [Except.ok.injEq] at h
        subst h
        rfl
  · simp only [Except.ok.injEq] at h
    subst h
    rfl

lemma verdictCore_nodup {c : Bool} {cur : Option String}
    {req req' : List (Option String)} (h : verdictCore c cur req = .ok req')
    (hn : req.Nodup) : req'.Nodup := by
  unfold verdictCore at h
  split at h
  · match cur, h with
    | some s, h =>
      simp only [Except.ok.injEq] at h
      subst h
      split
      · exact hn
      · rename_i hmem
        have hc := List.Nodup.concat hmem hn
        rwa [List.concat_eq_append] at hc
  · simp only [Except.ok.injEq] at h
    subst h
    exact hn

lemma verdictPhase_ok_nodup {cfg : Config} {line : List Char} {st st' : PState}
    (h : verdictPhase cfg line st = .ok st')
    (hn : st.interfacesRequiringNewIID.Nodup) :
    st'.interfacesRequiringNewIID.Nodup := by
  simp only [verdictPhase] at h
  split at h
  · exact absurd h (by simp)
  · rename_i req hv
    simp only [Except.ok.injEq] at h
    subst h
    exact verdictCore_nodup hv hn

lemma removalPhase_nodup (line : List Char) (st : PState)
    (hn : st.interfacesRequiringNewIID.Nodup) :
    (removalPhase line st).interfacesRequiringNewIID.Nodup := by
  simp only [removalPhase]
  split_ifs <;> first
    | exact hn
    | exact hn.erase _

lemma stepMain_ok_nodup {cfg : Config} {st st' : PState} {line : List Char}
    (h : stepMain cfg st line = .ok st')
    (hn : st.interfacesRequiringNewIID.Nodup) : st'.interfacesRequiringNewIID.Nodup := by
  simp only [stepMain] at h
  split at h
  · exact absurd h (by simp)
  · rename_i st4 hrn
    split at h
    · exact absurd h (by simp)
    · rename_i st5 hctx
      split at h
      · exact absurd h (by simp)
      · rename_i st6 hvrd
        simp only [Except.ok.injEq] at h
        subst h
        have h4 : st4.interfacesRequiringNewIID = st.interfacesRequiringNewIID := by
          rw [renamePhase_ok_required hrn, defPhase_required, iidPhase_required,
              filePhase_required]
        refine removalPhase_nodup _ _ ?_
        refine verdictPhase_ok_nodup hvrd ?_
        rw [contextPhase_ok_required hctx, h4]
        exact hn

lemma stepLine_ok_nodup {cfg : Config} {st st' : PState} {line : List Char}
    (h : stepLine cfg st line = .ok st')
    (hn : st.interfacesRequiringNewIID.Nodup) : st'.interfacesRequiringNewIID.Nodup := by
  simp only [stepLine] at h
  split at h
  · exact absurd h (by simp)
  · split at h
    · simp only [Except.ok.injEq] at h
      subst h
      rwa [stepEarly_required]
    · split at h
      · split at h
        · exact absurd h (by simp)
        · split at h
          · simp only [Except.ok.injEq] at h
            subst h
            rwa [stepEarly_required]
          · refine stepMain_ok_nodup h ?_
            rwa [stepEarly_required]
      · refine stepMain_ok_nodup h ?_
        rwa [stepEarly_required]

lemma parsePatchFrom_nodup {cfg : Config} {st res : PState} {patch : List String}
    (h : parsePatchFrom cfg st patch = .ok res)
    (hn : st.interfacesRequiringNewIID.Nodup) : res.interfacesRequiringNewIID.Nodup := by
  induction patch generalizing st with
  | nil =>
    unfold parsePatchFrom at h
    simp only [Except.ok.injEq] at h
    subst h
    exact hn
  | cons l rest ih =>
    unfold parsePatchFrom at h
    split at h
    · exact absurd h (by simp)
    · rename_i st2 hstep
      exact ih h (stepLine_ok_nodup hstep hn)

/-- C1 (confirmed): a line reaching the classification step adds the current
interface name to `interfacesRequiringNewIID` iff the binary-compat
descriptor predicate holds for the line, or (the interface was not detected
as renamed, no descriptor is present, the line is not an identifier removal,
not a comment, not a constant expression, it is a change line, and a current
interface name is set); the addition uses set semantics, and the required
list stays duplicate-free over any whole traversal. -/
theorem c1_verdict_membership (descs : List IDLDescriptor) (line : List Char)
    (renamed cmt : Bool) (cur : Option String) (req req' : List (Option String))
    (h : verdictCore
      (verdictCondition (areDescriptorsInLineAffectingBinaryCompat descs line) renamed
        (hasDescriptorsInLine descs line) (isLineIIDRemoval line) cmt
        (isLineConstantExpression line) (isLineChange line) cur) cur req = .ok req') :
    (∀ x, x ∈ req' ↔ x ∈ req ∨
      (verdictCondition (areDescriptorsInLineAffectingBinaryCompat descs line) renamed
        (hasDescriptorsInLine descs line) (isLineIIDRemoval line) cmt
        (isLineConstantExpression line) (isLineChange line) cur = true ∧ x = cur)) ∧
    (req.Nodup → req'.Nodup) ∧
    (∀ cfg st patch res, parsePatchFrom cfg st patch = .ok res →
      st.interfacesRequiringNewIID.Nodup → res.interfacesRequiringNewIID.Nodup) := by
  refine ⟨?_, fun hn => verdictCore_nodup h hn,
    fun cfg st patch res hp hn => parsePatchFrom_nodup hp hn⟩
  intro x
  generalize hC : verdictCondition (areDescriptorsInLineAffectingBinaryCompat descs line)
    renamed (hasDescriptorsInLine descs line) (isLineIIDRemoval line) cmt
    (isLineConstantExpression line) (isLineChange line) cur = C at h ⊢
  unfold verdictCore at h
  cases C with
  | false =>
    rw [if_neg (by simp)] at h
    simp only [Except.ok.injEq] at h
    subst h
    simp
  | true =>
    rw [if_pos rfl] at h
    match cur, h with
    | some s, h =>
      simp only [Except.ok.injEq] at h
      subst h
      split
      · rename_i hmem
        constructor
        · intro hx
          exact Or.inl hx
        · rintro (hx | ⟨-, rfl⟩)
          · exact hx
          · exact hmem
      · rename_i hmem
        simp only [List.mem_append, List.mem_singleton]
        tauto

/-- C1 witness: a plain added member line inside a known interface meets the
condition and the name is inserted into the empty required list. -/
theorem c1_witness :
    (some "nsIFoo" ∈ ([some "nsIFoo"] : List (Option String))) ↔
      (some "nsIFoo" ∈ ([] : List (Option String)) ∨
        (verdictCondition
          (areDescriptorsInLineAffectingBinaryCompat mainDescriptors "+  void frob();".toList)
          false (hasDescriptorsInLine mainDescriptors "+  void frob();".toList)
          (isLineIIDRemoval "+  void frob();".toList) false
          (isLineConstantExpression "+  void frob();".toList)
          (isLineChange "+  void frob();".toList) (some "nsIFoo") = true ∧
          (some "nsIFoo" : Option String) = some "nsIFoo")) :=
  (c1_verdict_membership mainDescriptors "+  void frob();".toList false false
    (some "nsIFoo") [] [some "nsIFoo"] rfl).1 (some "nsIFoo")

/-! Shared concrete inputs for the driver claims. -/

/-- A configuration whose on-disk tree is empty (every `open` fails). -/
def emptyFsCfg : Config := ⟨fun _ => none, "/repo", mainDescriptors⟩

/-- A `diff --git` header naming an IDL file. -/
def idlHeader : String := "diff --git a/xpcom/nsIFoo.idl b/xpcom/nsIFoo.idl"

/-- C7 counterexample: the claim says a whitespace-only change line leaves
all traversal state (including the removal flag) unchanged apart from the
line-cursor update.  After the header and an identifier-removal line,
`interfaceMayBeRemoved` is `true`; processing the whitespace-only addition
line `"+ "` — a change line whose stripped content is empty — resets the
flag to `false` (line 851 runs before the empty-content skip). -/
theorem c7_counterexample :
    (parsePatchFrom emptyFsCfg initialState
        [idlHeader, "-[uuid(1)] x"]).map (fun s => s.interfaceMayBeRemoved) = .ok true ∧
    (parsePatchFrom emptyFsCfg initialState
        [idlHeader, "-[uuid(1)] x", "+ "]).map (fun s => s.interfaceMayBeRemoved) = .ok false ∧
    isLineChange "+ ".toList = true ∧
    (extractContentFromChangeLine "+ ".toList).map (fun c => (rstripList c).isEmpty)
      = some true := by
  exact ⟨rfl, rfl, rfl, rfl⟩

/-- C7 (amended): a change line whose stripped content is empty is skipped
by the driver, leaving all traversal state and all three result collections
unchanged EXCEPT the line-cursor update (`currentLineNumber`,
`lastLineWasRemoval`, the line counter) plus two early mutations that run
before the skip: `interfaceMayBeRemoved` is cleared when the line is an
addition line, and `needInterfaceName` is set when no current interface
name is set. -/
theorem c7_amended_frame (cfg : Config) (st : PState) (line : List Char)
    (hchg : isLineChange line = true)
    (hempty : (extractContentFromChangeLine line).map (fun c => (rstripList c).isEmpty)
      = some true)
    (hbound : st.currentIDLFileWasDeleted.isSome = true) :
    stepLine cfg st line = .ok { st with
      lineNo := st.lineNo + 1,
      currentLineNumber := (updateFileMetadata line st.currentLineNumber st.lastLineWasRemoval).1,
      lastLineWasRemoval := (updateFileMetadata line st.currentLineNumber st.lastLineWasRemoval).2,
      interfaceMayBeRemoved := if isAdditionLine line then false else st.interfaceMayBeRemoved,
      needInterfaceName := if pyTruthy st.currentInterfaceName then st.needInterfaceName else true } := by
  obtain ⟨b, hb⟩ := Option.isSome_iff_exists.1 hbound
  obtain ⟨c, hc, hcempty⟩ : ∃ c, extractContentFromChangeLine line = some c ∧
      (rstripList c).isEmpty = true := by
    cases hx : extractContentFromChangeLine line with
    | none => rw [hx] at hempty; cases hempty
    | some c =>
      rw [hx] at hempty
      simp only [Option.map_some', Option.some.injEq] at hempty
      exact ⟨c, rfl, hempty⟩
  have hidl := change_not_idl_start hchg
  have hdel := change_not_deletion hchg
  simp only [stepLine, stepEarly, hidl, hdel, Bool.false_or, Bool.false_eq_true,
    if_false, hb, hchg, if_true, hc, hcempty]
  cases b <;> simp

/-- C7 amended witness: the skip applied to `"+ "` after the identifier
removal, with every hypothesis discharged concretely. -/
theorem c7_amended_frame_witness :
    stepLine emptyFsCfg
      { initialState with currentIDLFileWasDeleted := some false,
                          interfaceMayBeRemoved := true } "+ ".toList
      = .ok { initialState with
          currentIDLFileWasDeleted := some false,
          interfaceMayBeRemoved :=
            if isAdditionLine "+ ".toList then false else true,
          lineNo := (0 : Int) + 1,
          currentLineNumber :=
            (updateFileMetadata "+ ".toList (-1 : Int) false).1,
          lastLineWasRemoval :=
            (updateFileMetadata "+ ".toList (-1 : Int) false).2,
          needInterfaceName := if pyTruthy none then false else true } :=
  c7_amended_frame emptyFsCfg
    { initialState with currentIDLFileWasDeleted := some false, interfaceMayBeRemoved := true }
    "+ ".toList rfl rfl rfl

/-! Helper lemmas for the comment-range cache and the warning list. -/

lemma alookup_ainsert_self {ν : Type} (m : List (Option String × ν))
    (k : Option String) (v : ν) : alookup (ainsert m k v) k = some v := by
  induction m with
  | nil => simp [ainsert, alookup]
  | cons hd t ih =>
    obtain ⟨k', w⟩ := hd
    by_cases hk : k' = k
    · subst hk
      simp [ainsert, alookup]
    · simp [ainsert, alookup, hk, ih]

lemma stepEarly_warnings (line : List Char) (st : PState) :
    (stepEarly line st).fileWarningsIssued = st.fileWarningsIssued := rfl

lemma filePhase_warnings (cfg : Config) (line : List Char) (st : PState) :
    (filePhase cfg line st).fileWarningsIssued = st.fileWarningsIssued := by
  simp only [filePhase]
  split_ifs <;> rfl

lemma iidPhase_warnings (line : List Char) (st : PState) :
    (iidPhase line st).fileWarningsIssued = st.fileWarningsIssued := by
  simp only [iidPhase]
  split_ifs <;> rfl

lemma defPhase_warnings (line : List Char) (st : PState) :
    (defPhase line st).fileWarningsIssued = st.fileWarningsIssued := by
  simp only [defPhase]
  split_ifs <;> rfl

lemma renamePhase_ok_warnings {cfg : Config} {line : List Char} {st st' : PState}
    (h : renamePhase cfg line st = .ok st') :
    st'.fileWarningsIssued = st.fileWarningsIssued := by
  simp only [renamePhase] at h
  split_ifs at h
  · split at h
    · exact absurd h (by simp)
    · split at h
      · exact absurd h (by simp)
      · split_ifs at h
        · split at h
          · exact absurd h (by simp)
          · simp only [Except.ok.injEq] at h
            subst h
            rfl
        · simp only [Except.ok.injEq] at h
          subst h
          rfl
  · simp only [Except.ok.injEq] at h
    subst h
    rfl

lemma contextPhase_ok_warnings {line : List Char} {st st' : PState}
    (h : contextPhase line st = .ok st') :
    st'.fileWarningsIssued = st.fileWarningsIssued := by
  simp only [contextPhase] at h
  split at h
  · split at h
    · exact absurd h (by simp)
    · split at h
      · simp only [Except.ok.injEq] at h
        subst h
        rfl
      · simp only [Except.ok.injEq] at h
        subst h
        rfl
  · simp only [Except.ok.injEq] at h
    subst h
    rfl

lemma verdictPhase_ok_warnings_nodup {cfg : Config} {line : List Char} {st st' : PState}
    (h : verdictPhase cfg line st = .ok st')
    (hn : st.fileWarningsIssued.Nodup) : st'.fileWarningsIssued.Nodup := by
  simp only [verdictPhase] at h
  split at h
  · exact absurd h (by simp)
  · simp only [Except.ok.injEq] at h
    subst h
    dsimp only
    split_ifs with hg
    · have hmem : st.currentIDLFile ∉ st.fileWarningsIssued := by
        intro hm
        rw [Bool.and_eq_true] at hg
        have hc := hg.2
        simp [hm] at hc
      have hcat := List.Nodup.concat hmem hn
      rwa [List.concat_eq_append] at hcat
    · exact hn

lemma removalPhase_warnings (line : List Char) (st : PState) :
    (removalPhase line st).fileWarningsIssued = st.fileWarningsIssued := by
  simp only [removalPhase]
  split_ifs <;> rfl

lemma stepMain_ok_warnings_nodup {cfg : Config} {st st' : PState} {line : List Char}
    (h : stepMain cfg st line = .ok st')
    (hn : st.fileWarningsIssued.Nodup) : st'.fileWarningsIssued.Nodup := by
  simp only [stepMain] at h
  split at h
  · exact absurd h (by simp)
  · rename_i st4 hrn
    split at h
    · exact absurd h (by simp)
    · rename_i st5 hctx
      split at h
      · exact absurd h (by simp)
      · rename_i st6 hvrd
        simp only [Except.ok.injEq] at h
        subst h
        rw [removalPhase_warnings]
        refine verdictPhase_ok_warnings_nodup hvrd ?_
        rw [contextPhase_ok_warnings hctx, renamePhase_ok_warnings hrn,
            defPhase_warnings, iidPhase_warnings, filePhase_warnings]
        exact hn

lemma stepLine_ok_warnings_nodup {cfg : Config} {st st' : PState} {line : List Char}
    (h : stepLine cfg st line = .ok st')
    (hn : st.fileWarningsIssued.Nodup) : st'.fileWarningsIssued.Nodup := by
  simp only [stepLine] at h
  split at h
  · exact absurd h (by simp)
  · split at h
    · simp only [Except.ok.injEq] at h
      subst h
      rwa [stepEarly_warnings]
    · split at h
      · split at h
        · exact absurd h (by simp)
        · split at h
          · simp only [Except.ok.injEq] at h
            subst h
            rwa [stepEarly_warnings]
          · refine stepMain_ok_warnings_nodup h ?_
            rwa [stepEarly_warnings]
      · refine stepMain_ok_warnings_nodup h ?_
        rwa [stepEarly_warnings]

lemma parsePatchFrom_warnings_nodup {cfg : Config} {st res : PState} {patch : List String}
    (h : parsePatchFrom cfg st patch = .ok res)
    (hn : st.fileWarningsIssued.Nodup) : res.fileWarningsIssued.Nodup := by
  induction patch generalizing st with
  | nil =>
    unfold parsePatchFrom at h
    simp only [Except.ok.injEq] at h
    subst h
    exact hn
  | cons l rest ih =>
    unfold parsePatchFrom at h
    split at h
    · exact absurd h (by simp)
    · rename_i st2 hstep
      exact ih h (stepLine_ok_warnings_nodup hstep hn)

/-- C10 (confirmed): a failed first indexing of a path caches an empty range
list for it; every later `getRangesForFilePath` on that path — under ANY
filesystem, showing the disk is not re-read — returns the empty list
without raising; with that cache entry, `isLineComment` answers using only
the leading `//` check, so every line of the file is treated as outside any
block comment; and the warning list never holds a file name twice over a
whole traversal. -/
theorem c10_missing_file_cached (fs fs' : FileSystem) (cache : RangeCache)
    (p : String) (l : List Char) (n : Int)
    (hmiss : alookup cache (some p) = none) (hfs : fs p = none) :
    getRangesForFilePath fs cache (some p)
      = (.error .ioError, ainsert cache (some p) []) ∧
    getRangesForFilePath fs' (ainsert cache (some p) []) (some p)
      = (.ok [], ainsert cache (some p) []) ∧
    isLineComment fs' (ainsert cache (some p) []) l n (some p)
      = (.ok (isLineChange l && commentSlashMatch l), ainsert cache (some p) []) ∧
    (∀ (cfg : Config) (st res : PState) (patch : List String),
      parsePatchFrom cfg st patch = .ok res →
      st.fileWarningsIssued.Nodup → res.fileWarningsIssued.Nodup) := by
  have hb : getRangesForFilePath fs' (ainsert cache (some p) []) (some p)
      = (.ok [], ainsert cache (some p) []) := by
    unfold getRangesForFilePath
    rw [alookup_ainsert_self]
  refine ⟨?_, hb, ?_, fun cfg st res patch hp hn => parsePatchFrom_warnings_nodup hp hn⟩
  · unfold getRangesForFilePath findAllSpecialBlocksForFile
    rw [hmiss]
    simp [hfs]
  · unfold isLineComment
    cases hchg : isLineChange l
    · simp
    · cases hsl : commentSlashMatch l
      · simp only [hchg, hsl, Bool.not_true, Bool.false_eq_true, if_false, hb]
        simp
      · simp

/-- C10 witness: everything instantiated at the empty cache, an absent file
and a concrete line. -/
theorem c10_missing_file_cached_witness :
    getRangesForFilePath (fun _ => none) [] (some "x.idl")
      = (.error .ioError, ainsert [] (some "x.idl") []) ∧
    getRangesForFilePath (fun _ => none) (ainsert [] (some "x.idl") []) (some "x.idl")
      = (.ok [], ainsert [] (some "x.idl") []) ∧
    isLineComment (fun _ => none) (ainsert [] (some "x.idl") []) "+z".toList 0 (some "x.idl")
      = (.ok (isLineChange "+z".toList && commentSlashMatch "+z".toList),
         ainsert [] (some "x.idl") []) ∧
    (∀ (cfg : Config) (st res : PState) (patch : List String),
      parsePatchFrom cfg st patch = .ok res →
      st.fileWarningsIssued.Nodup → res.fileWarningsIssued.Nodup) :=
  c10_missing_file_cached (fun _ => none) (fun _ => none) [] "x.idl" "+z".toList 0 rfl rfl

/-! Helper lemmas for the name-to-file map invariant. -/

/-- Key membership in the interface-name map (Python `in dict`). -/
def mapHasKey (m : List (Option String × Option String)) (k : Option String) : Bool :=
  (alookup m k).isSome

lemma alookup_ainsert {ν : Type} (m : List (Option String × ν))
    (k' k : Option String) (v : ν) :
    alookup (ainsert m k' v) k = if k' = k then some v else alookup m k := by
  induction m with
  | nil =>
    by_cases hk : k' = k <;> simp [ainsert, alookup, hk]
  | cons hd t ih =>
    obtain ⟨a, w⟩ := hd
    by_cases ha : a = k'
    · subst ha
      by_cases hk : a = k <;> simp [ainsert, alookup, hk]
    · simp only [ainsert, if_neg ha, alookup]
      by_cases hk2 : a = k
      · subst hk2
        have hne : ¬ k' = a := fun hh => ha hh.symm
        simp [alookup, hne]
      · simp [alookup, hk2, ih]

lemma mapHasKey_ainsert_mono {m : List (Option String × Option String)}
    {k : Option String} (k' : Option String) (v : Option String)
    (h : mapHasKey m k = true) : mapHasKey (ainsert m k' v) k = true := by
  unfold mapHasKey at h ⊢
  rw [alookup_ainsert]
  split_ifs
  · rfl
  · exact h

lemma mapHasKey_ainsert_self (m : List (Option String × Option String))
    (k : Option String) (v : Option String) :
    mapHasKey (ainsert m k v) k = true := by
  unfold mapHasKey
  rw [alookup_ainsert_self]
  rfl

/-- Every element of the list `verdictCore` returns was already present or
is the (necessarily non-`None`) current interface name. -/
lemma verdictCore_mem {c : Bool} {cur : Option String}
    {req req' : List (Option String)} (h : verdictCore c cur req = .ok req') :
    ∀ x ∈ req', x ∈ req ∨ (∃ s, cur = some s ∧ x = some s) := by
  unfold verdictCore at h
  split at h
  · match cur, h with
    | some s, h =>
      simp only [Except.ok.injEq] at h
      subst h
      intro x hx
      split at hx
      · exact Or.inl hx
      · rcases List.mem_append.1 hx with hx | hx
        · exact Or.inl hx
        · simp only [List.mem_singleton] at hx
          exact Or.inr ⟨s, rfl, hx⟩
  · simp only [Except.ok.injEq] at h
    subst h
    intro x hx
    exact Or.inl hx

/-- The invariant tying the current interface name and the required list to
the keys of `interfaceNameIDLMap`. -/
def InvCM (st : PState) : Prop :=
  (∀ s : String, st.currentInterfaceName = some s →
    mapHasKey st.interfaceNameIDLMap (some s) = true) ∧
  (∀ x ∈ st.interfacesRequiringNewIID, mapHasKey st.interfaceNameIDLMap x = true)

lemma stepEarly_invCM {line : List Char} {st : PState} (h : InvCM st) :
    InvCM (stepEarly line st) := h

lemma filePhase_invCM {cfg : Config} {line : List Char} {st : PState} (h : InvCM st) :
    InvCM (filePhase cfg line st) := by
  have hmap : (filePhase cfg line st).interfaceNameIDLMap = st.interfaceNameIDLMap := by
    simp only [filePhase]
    split_ifs <;> rfl
  have hcur : (filePhase cfg line st).currentInterfaceName = none ∨
      (filePhase cfg line st).currentInterfaceName = st.currentInterfaceName := by
    simp only [filePhase]
    split_ifs <;> simp
  constructor
  · intro s hs
    rw [hmap]
    rcases hcur with hc | hc
    · rw [hc] at hs
      cases hs
    · rw [hc] at hs
      exact h.1 s hs
  · intro x hx
    rw [hmap]
    rw [filePhase_required] at hx
    exact h.2 x hx

lemma iidPhase_invCM {line : List Char} {st : PState} (h : InvCM st) :
    InvCM (iidPhase line st) := by
  have hmap : (iidPhase line st).interfaceNameIDLMap = st.interfaceNameIDLMap := by
    simp only [iidPhase]
    split_ifs <;> rfl
  have hcur : (iidPhase line st).currentInterfaceName = none ∨
      (iidPhase line st).currentInterfaceName = st.currentInterfaceName := by
    simp only [iidPhase]
    split_ifs <;> simp
  constructor
  · intro s hs
    rw [hmap]
    rcases hcur with hc | hc
    · rw [hc] at hs
      cases hs
    · rw [hc] at hs
      exact h.1 s hs
  · intro x hx
    rw [hmap]
    rw [iidPhase_required] at hx
    exact h.2 x hx

lemma defPhase_invCM {line : List Char} {st : PState} (h : InvCM st) :
    InvCM (defPhase line st) := by
  by_cases hg : (st.needInterfaceName && isInterfaceDefinitionLine line) = true
  · have hd : defPhase line st = { st with
        currentInterfaceName := extractInterfaceNameFromDefinitionLine line,
        revvedInterfaces :=
          if st.foundIIDChangeLine
          then st.revvedInterfaces ++ [extractInterfaceNameFromDefinitionLine line]
          else st.revvedInterfaces,
        foundIIDChangeLine := if st.foundIIDChangeLine then false else st.foundIIDChangeLine,
        needInterfaceName := false,
        interfaceNameIDLMap :=
          ainsert st.interfaceNameIDLMap (extractInterfaceNameFromDefinitionLine line)
            st.currentIDLFile } := by
      unfold defPhase
      rw [if_pos hg]
    rw [hd]
    constructor
    · intro s hs
      dsimp only at hs ⊢
      rw [← hs]
      exact mapHasKey_ainsert_self _ _ _
    · intro x hx
      dsimp only at hx ⊢
      exact mapHasKey_ainsert_mono _ _ (h.2 x hx)
  · have hd : defPhase line st = st := by
      unfold defPhase
      rw [if_neg hg]
    rw [hd]
    exact h

lemma renamePhase_ok_invCM {cfg : Config} {line : List Char} {st st' : PState}
    (hinv : InvCM st) (h : renamePhase cfg line st = .ok st') : InvCM st' := by
  simp only [renamePhase] at h
  split_ifs at h
  · split at h
    · exact absurd h (by simp)
    · split at h
      · exact absurd h (by simp)
      · split_ifs at h
        · split at h
          · exact absurd h (by simp)
          · simp only [Except.ok.injEq] at h
            subst h
            exact hinv
        · simp only [Except.ok.injEq] at h
          subst h
          exact hinv
  · simp only [Except.ok.injEq] at h
    subst h
    exact hinv

lemma contextPhase_ok_invCM {line : List Char} {st st' : PState}
    (hinv : InvCM st) (h : contextPhase line st = .ok st') : InvCM st' := by
  simp only [contextPhase] at h
  split at h
  · split at h
    · exact absurd h (by simp)
    · split at h
      · simp only [Except.ok.injEq] at h
        subst h
        constructor
        · intro s hs
          dsimp only at hs ⊢
          rw [← hs]
          exact mapHasKey_ainsert_self _ _ _
        · intro x hx
          exact mapHasKey_ainsert_mono _ _ (hinv.2 x hx)
      · simp only [Except.ok.injEq] at h
        subst h
        exact hinv
  · simp only [Except.ok.injEq] at h
    subst h
    exact hinv

lemma verdictPhase_ok_invCM {cfg : Config} {line : List Char} {st st' : PState}
    (hinv : InvCM st) (h : verdictPhase cfg line st = .ok st') : InvCM st' := by
  simp only [verdictPhase] at h
  split at h
  · exact absurd h (by simp)
  · rename_i req hv
    simp only [Except.ok.injEq] at h
    subst h
    constructor
    · intro s hs
      exact hinv.1 s hs
    · intro x hx
      rcases verdictCore_mem hv x hx with hx' | ⟨s, hcur, rfl⟩
      · exact hinv.2 x hx'
      · exact hinv.1 s hcur

lemma removalPhase_invCM {line : List Char} {st : PState} (hinv : InvCM st) :
    InvCM (removalPhase line st) := by
  unfold InvCM
  simp only [removalPhase]
  split_ifs
  · refine ⟨hinv.1, fun x hx => hinv.2 x ?_⟩
    exact (st.interfacesRequiringNewIID.erase_subset _) hx
  · exact hinv
  · exact hinv

lemma stepMain_ok_invCM {cfg : Config} {st st' : PState} {line : List Char}
    (hinv : InvCM st) (h : stepMain cfg st line = .ok st') : InvCM st' := by
  simp only [stepMain] at h
  split at h
  · exact absurd h (by simp)
  · rename_i st4 hrn
    split at h
    · exact absurd h (by simp)
    · rename_i st5 hctx
      split at h
      · exact absurd h (by simp)
      · rename_i st6 hvrd
        simp only [Except.ok.injEq] at h
        subst h
        exact removalPhase_invCM
          (verdictPhase_ok_invCM
            (contextPhase_ok_invCM
              (renamePhase_ok_invCM (defPhase_invCM (iidPhase_invCM (filePhase_invCM hinv))) hrn)
              hctx)
            hvrd)

lemma stepLine_ok_invCM {cfg : Config} {st st' : PState} {line : List Char}
    (hinv : InvCM st) (h : stepLine cfg st line = .ok st') : InvCM st' := by
  simp only [stepLine] at h
  split at h
  · exact absurd h (by simp)
  · split at h
    · simp only [Except.ok.injEq] at h
      subst h
      exact stepEarly_invCM hinv
    · split at h
      · split at h
        · exact absurd h (by simp)
        · split at h
          · simp only [Except.ok.injEq] at h
            subst h
            exact stepEarly_invCM hinv
          · exact stepMain_ok_invCM (stepEarly_invCM hinv) h
      · exact stepMain_ok_invCM (stepEarly_invCM hinv) h

lemma parsePatchFrom_invCM {cfg : Config} {st res : PState} {patch : List String}
    (hinv : InvCM st) (h : parsePatchFrom cfg st patch = .ok res) : InvCM res := by
  induction patch generalizing st with
  | nil =>
    unfold parsePatchFrom at h
    simp only [Except.ok.injEq] at h
    subst h
    exact hinv
  | cons l rest ih =>
    unfold parsePatchFrom at h
    split at h
    · exact absurd h (by simp)
    · rename_i st2 hstep
      exact ih (stepLine_ok_invCM hinv hstep) h

/-- C6 (confirmed): whenever a traversal completes, every element of
`interfacesRequiringNewIID` is a key of `interfaceNameIDLMap`, so the
reporting stage's lookup cannot fail.  (A binary-compat descriptor line seen
while no interface name is set crashes the traversal at the debug
concatenation on line 1009 before anything is appended, so completed
traversals only ever append names that were mapped when captured.) -/
theorem c6_required_names_mapped (cfg : Config) (patch : List String)
    (r : ParseResult) (h : parsePatch cfg patch = .ok r) :
    ∀ x ∈ r.interfacesRequiringNewIID, mapHasKey r.interfaceNameIDLMap x = true := by
  unfold parsePatch at h
  cases hrun : parsePatchFrom cfg initialState patch with
  | error e => rw [hrun] at h; cases h
  | ok stF =>
    rw [hrun] at h
    simp only [Except.map, Except.ok.injEq] at h
    subst h
    have hiv : InvCM stF := by
      refine parsePatchFrom_invCM ?_ hrun
      exact ⟨fun s hs => Option.noConfusion hs, fun x hx => absurd hx (List.not_mem_nil x)⟩
    exact hiv.2

/-- C6 witness: a patch that adds a member to `nsIFoo` completes with
`nsIFoo` required, and its name is a key of the produced map. -/
theorem c6_required_names_mapped_witness :
    mapHasKey [(some "nsIFoo", some "nsIFoo.idl")] (some "nsIFoo") = true :=
  c6_required_names_mapped emptyFsCfg
    [idlHeader, "+interface nsIFoo : nsISupports \x7b", "+  void frob();"]
    ⟨[some "nsIFoo"], [], [(some "nsIFoo", some "nsIFoo.idl")]⟩ rfl
    (some "nsIFoo") (by simp)

/-! Helper lemmas for the pure-removal claim. -/

lemma parsePatchFrom_append (cfg : Config) (st : PState) (xs ys : List String) :
    parsePatchFrom cfg st (xs ++ ys) =
      (match parsePatchFrom cfg st xs with
       | .error e => .error e
       | .ok st2 => parsePatchFrom cfg st2 ys) := by
  induction xs generalizing st with
  | nil => rfl
  | cons l rest ih =>
    simp only [List.cons_append, parsePatchFrom]
    cases stepLine cfg st l.toList with
    | error e => rfl
    | ok st2 => exact ih st2

lemma filePhase_noop {cfg : Config} {line : List Char} {st : PState}
    (h1 : isStartOfIDLFile line = false) (h2 : isLineStartOfNewFile line = false) :
    filePhase cfg line st = st := by
  simp [filePhase, h1, h2]

lemma iidPhase_noop {line : List Char} {st : PState}
    (h1 : isLineIIDAddition line = false) (h2 : isLineIIDDefinition line = false) :
    iidPhase line st = st := by
  simp [iidPhase, h1, h2]

lemma defPhase_noop {line : List Char} {st : PState}
    (h : (st.needInterfaceName && isInterfaceDefinitionLine line) = false) :
    defPhase line st = st := by
  simp [defPhase, h]

lemma renamePhase_noop {cfg : Config} {line : List Char} {st : PState}
    (h : (!st.needInterfaceName && isInterfaceDefinitionLine line) = false) :
    renamePhase cfg line st = .ok st := by
  simp [renamePhase, h]

lemma contextPhase_noop {line : List Char} {st : PState}
    (h : isContextLine line = false) : contextPhase line st = .ok st := by
  simp [contextPhase, h]

lemma removalPhase_noop {line : List Char} {st : PState}
    (h : isEndOfInterfaceRemoval line = false) : removalPhase line st = st := by
  simp [removalPhase, h]

/-- `verdictCore` applied to a non-`None` current name never raises, and its
result is the set-insert of the name when the condition holds. -/
lemma verdictCore_some (c : Bool) (s : String) (req : List (Option String)) :
    verdictCore c (some s) req
      = .ok (if c = true
             then (if (some s) ∈ req then req else req ++ [some s])
             else req) := by
  cases c <;> simp [verdictCore]

/-- `verdictPhase` with a non-`None` current interface name always succeeds,
preserves all driver flags, and at most set-inserts the name into the
required list. -/
lemma verdictPhase_some {cfg : Config} {line : List Char} {st : PState} {s : String}
    (hcur : st.currentInterfaceName = some s) :
    ∃ st', verdictPhase cfg line st = .ok st' ∧
      st'.currentInterfaceName = some s ∧
      st'.needInterfaceName = st.needInterfaceName ∧
      st'.interfaceMayBeRemoved = st.interfaceMayBeRemoved ∧
      st'.currentInterfaceWasRenamed = st.currentInterfaceWasRenamed ∧
      st'.currentIDLFileWasDeleted = st.currentIDLFileWasDeleted ∧
      st'.currentIDLPath = st.currentIDLPath ∧
      st'.previousInterfaceName = st.previousInterfaceName ∧
      (st'.interfacesRequiringNewIID = st.interfacesRequiringNewIID ∨
        (some s ∉ st.interfacesRequiringNewIID ∧
         st'.interfacesRequiringNewIID = st.interfacesRequiringNewIID ++ [some s])) := by
  simp only [verdictPhase, hcur, verdictCore_some]
  refine ⟨_, rfl, rfl, rfl, rfl, rfl, rfl, rfl, rfl, ?_⟩
  dsimp only
  split_ifs with h1 h2
  · exact Or.inl rfl
  · exact Or.inr ⟨h2, rfl⟩
  · exact Or.inl rfl

/-- `isLineInterfaceRename` returns `False` whenever the previous interface
name is `None`, whatever the path and range. -/
lemma rename_none_current (fs : FileSystem) (l : List Char) (p : Option String)
    (r : Option (Option Int × Int)) :
    isLineInterfaceRename fs l none p r = .ok false := by
  unfold isLineInterfaceRename
  cases hpt : pyTruthy p <;> simp [hpt, pyTruthy]

/-- Facts every removal line satisfies: it is not an addition, context,
file-start, deletion-marker or identifier-addition line, it is a change
line, and its content is its tail. -/
lemma removal_line_facts (l : List Char) (h : isRemovalLine l = true) :
    isAdditionLine l = false ∧ isContextLine l = false ∧
    isStartOfIDLFile l = false ∧ isLineStartOfNewFile l = false ∧
    doesLineSignifyDeletion l = false ∧ isLineIIDAddition l = false ∧
    isLineChange l = true ∧
    ∃ t, l = '-' :: t ∧ extractContentFromChangeLine l = some t := by
  have hchg : isLineChange l = true := by
    unfold isLineChange
    rw [h]
    simp
  have hadd : isAdditionLine l = false := by
    cases hA : isAdditionLine l
    · rfl
    · have hcontra := not_addition_and_removal l
      rw [hA, h] at hcontra
      cases hcontra
  obtain ⟨t, rfl⟩ : ∃ t, l = '-' :: t := by
    have hh := ((removal_iff l).1 h).1
    rcases l with _ | ⟨a, t⟩
    · simp at hh
    · simp only [List.head?_cons, Option.some.injEq] at hh
      exact ⟨t, by rw [hh]⟩
  refine ⟨hadd, ?_, change_not_idl_start hchg, ?_, change_not_deletion hchg, ?_, hchg, t, rfl, ?_⟩
  · simp [isContextLine, List.isPrefixOf]
  · have hpre : ("diff --git a/".toList.isPrefixOf ('-' :: t)) = false := by
      simp [List.isPrefixOf]
    unfold isLineStartOfNewFile
    rw [hpre]
    simp
  · unfold isLineIIDAddition
    simp [List.isPrefixOf]
  · unfold extractContentFromChangeLine
    rw [h]
    simp

/-- The body invariant of the pure-removal scenario: the deleted interface
is current, no name is needed, the removal flag is pending, no rename was
detected, the file is live, and the required list is at most the deleted
interface itself. -/
def C4Inv (st : PState) : Prop :=
  st.currentInterfaceName = some "nsIFoo" ∧
  st.needInterfaceName = false ∧
  st.interfaceMayBeRemoved = true ∧
  st.currentInterfaceWasRenamed = false ∧
  st.currentIDLFileWasDeleted = some false ∧
  (st.interfacesRequiringNewIID = [] ∨ st.interfacesRequiringNewIID = [some "nsIFoo"])

lemma stepEarly_c4_fields {l : List Char} {st : PState}
    (hidl : isStartOfIDLFile l = false) (hadd : isAdditionLine l = false)
    (hdels : doesLineSignifyDeletion l = false) :
    (stepEarly l st).currentInterfaceName = st.currentInterfaceName ∧
    (stepEarly l st).previousInterfaceName = st.previousInterfaceName ∧
    (stepEarly l st).currentIDLPath = st.currentIDLPath ∧
    (stepEarly l st).interfacesRequiringNewIID = st.interfacesRequiringNewIID ∧
    (stepEarly l st).interfaceMayBeRemoved = st.interfaceMayBeRemoved ∧
    (stepEarly l st).currentInterfaceWasRenamed = st.currentInterfaceWasRenamed ∧
    (stepEarly l st).currentIDLFileWasDeleted = st.currentIDLFileWasDeleted ∧
    (stepEarly l st).foundIIDChangeLine = st.foundIIDChangeLine ∧
    (stepEarly l st).needInterfaceName
      = (if pyTruthy st.currentInterfaceName then st.needInterfaceName else true) := by
  refine ⟨rfl, rfl, rfl, rfl, ?_, ?_, ?_, rfl, rfl⟩ <;>
    simp [stepEarly, hidl, hadd, hdels]

lemma c4_body_step {cfg : Config} {st st' : PState} {l : List Char}
    (hrem : isRemovalLine l = true) (hiidd : isLineIIDDefinition l = false)
    (hdefl : isInterfaceDefinitionLine l = false)
    (hendl : isEndOfInterfaceRemoval l = false)
    (hinv : C4Inv st) (h : stepLine cfg st l = .ok st') : C4Inv st' := by
  obtain ⟨hcur, hneed, hmay, hren, hdel, hreq⟩ := hinv
  obtain ⟨hadd, hctx, hidl, hnf, hdels, hiidadd, hchg, t, hlt, hcontent⟩ :=
    removal_line_facts l hrem
  obtain ⟨hEc, hEp, hEpath, hEreq, hEmay, hEren, hEdel, hEfnd, hEneed⟩ :=
    @stepEarly_c4_fields _ st hidl hadd hdels
  have hEneed' : (stepEarly l st).needInterfaceName = false := by
    rw [hEneed, hcur, show pyTruthy (some "nsIFoo") = true from rfl]
    simp [hneed]
  have hEinv : C4Inv (stepEarly l st) := by
    refine ⟨by rw [hEc, hcur], hEneed', by rw [hEmay, hmay], by rw [hEren, hren],
      by rw [hEdel, hdel], ?_⟩
    rw [hEreq]
    exact hreq
  simp only [stepLine] at h
  rw [hEdel, hdel] at h
  simp only [hchg, hcontent, eq_self_iff_true, if_true, Bool.false_eq_true, if_false] at h
  by_cases hre : (rstripList t).isEmpty = true
  · rw [hre] at h
    simp only [eq_self_iff_true, if_true, Except.ok.injEq] at h
    subst h
    exact hEinv
  · rw [Bool.not_eq_true] at hre
    rw [hre] at h
    simp only [Bool.false_eq_true, if_false] at h
    obtain ⟨hEc', hEneed'', hEmay', hEren', hEdel', hEreq'⟩ := hEinv
    have hdefno : defPhase l (stepEarly l st) = stepEarly l st :=
      defPhase_noop (by rw [hdefl]; simp)
    have hrenno : renamePhase cfg l (stepEarly l st) = .ok (stepEarly l st) :=
      renamePhase_noop (by rw [hdefl]; simp)
    have hctxno : contextPhase l (stepEarly l st) = .ok (stepEarly l st) :=
      contextPhase_noop hctx
    obtain ⟨stV, hvok, hVc, hVneed, hVmay, hVren, hVdel, hVpath, hVprev, hVreq⟩ :=
      @verdictPhase_some cfg l _ _ hEc'
    simp only [stepMain, filePhase_noop hidl hnf, iidPhase_noop hiidadd hiidd,
      hdefno, hrenno, hctxno, hvok, Except.ok.injEq] at h
    subst h
    rw [removalPhase_noop hendl]
    refine ⟨hVc, by rw [hVneed, hEneed''], by rw [hVmay, hEmay'],
      by rw [hVren, hEren'], by rw [hVdel, hEdel'], ?_⟩
    rcases hVreq with hV | ⟨hnotmem, hV⟩
    · rw [hV]
      exact hEreq'
    · rw [hV]
      rcases hEreq' with hE | hE
      · rw [hE]
        simp
      · rw [hE] at hnotmem
        simp at hnotmem

lemma c4_body_run {cfg : Config} {st res : PState} {body : List String}
    (hbody : ∀ l ∈ body, isRemovalLine l.toList = true ∧
      isLineIIDDefinition l.toList = false ∧ isInterfaceDefinitionLine l.toList = false ∧
      isEndOfInterfaceRemoval l.toList = false)
    (hinv : C4Inv st) (h : parsePatchFrom cfg st body = .ok res) : C4Inv res := by
  induction body generalizing st with
  | nil =>
    unfold parsePatchFrom at h
    simp only [Except.ok.injEq] at h
    subst h
    exact hinv
  | cons l rest ih =>
    unfold parsePatchFrom at h
    split at h
    · exact absurd h (by simp)
    · rename_i st2 hstep
      obtain ⟨h1, h2, h3, h4⟩ := hbody l (List.mem_cons_self l rest)
      exact ih (fun x hx => hbody x (List.mem_cons_of_mem l hx))
        (c4_body_step h1 h2 h3 h4 hinv hstep) h

lemma c4_close_step {cfg : Config} {st st' : PState}
    (hinv : C4Inv st) (h : stepLine cfg st "-\x7d".toList = .ok st') :
    some "nsIFoo" ∉ st'.interfacesRequiringNewIID := by
  obtain ⟨hcur, hneed, hmay, hren, hdel, hreq⟩ := hinv
  have hrem : isRemovalLine "-\x7d".toList = true := rfl
  obtain ⟨hadd, hctx, hidl, hnf, hdels, hiidadd, hchg, t, hlt, hcontent⟩ :=
    removal_line_facts _ hrem
  obtain ⟨hEc, hEp, hEpath, hEreq, hEmay, hEren, hEdel, hEfnd, hEneed⟩ :=
    @stepEarly_c4_fields _ st hidl hadd hdels
  have hEneed' : (stepEarly "-\x7d".toList st).needInterfaceName = false := by
    rw [hEneed, hcur, show pyTruthy (some "nsIFoo") = true from rfl]
    simp [hneed]
  have hEc' : (stepEarly "-\x7d".toList st).currentInterfaceName = some "nsIFoo" := by
    rw [hEc, hcur]
  simp only [stepLine] at h
  rw [hEdel, hdel] at h
  have hiidd : isLineIIDDefinition "-\x7d".toList = false := rfl
  have hdefl : isInterfaceDefinitionLine "-\x7d".toList = false := rfl
  have hcempty : extractContentFromChangeLine "-\x7d".toList = some ['\x7d'] := rfl
  have hne : (rstripList ['\x7d']).isEmpty = false := rfl
  simp only [hchg, hcempty, hne, eq_self_iff_true, if_true, Bool.false_eq_true,
    if_false] at h
  have hdefno : defPhase "-\x7d".toList (stepEarly "-\x7d".toList st)
      = stepEarly "-\x7d".toList st :=
    defPhase_noop (by rw [hdefl]; simp)
  have hrenno : renamePhase cfg "-\x7d".toList (stepEarly "-\x7d".toList st)
      = .ok (stepEarly "-\x7d".toList st) :=
    renamePhase_noop (by rw [hdefl]; simp)
  have hctxno : contextPhase "-\x7d".toList (stepEarly "-\x7d".toList st)
      = .ok (stepEarly "-\x7d".toList st) :=
    contextPhase_noop hctx
  obtain ⟨stV, hvok, hVc, hVneed, hVmay, hVren, hVdel, hVpath, hVprev, hVreq⟩ :=
    @verdictPhase_some cfg "-\x7d".toList _ _ hEc'
  simp only [stepMain, filePhase_noop hidl hnf, iidPhase_noop hiidadd hiidd,
    hdefno, hrenno, hctxno, hvok, Except.ok.injEq] at h
  subst h
  have hVmay' : stV.interfaceMayBeRemoved = true := by
    rw [hVmay, hEmay, hmay]
  have hVreq' : stV.interfacesRequiringNewIID = [] ∨
      stV.interfacesRequiringNewIID = [some "nsIFoo"] := by
    rcases hVreq with hV | ⟨hnm, hV⟩
    · rw [hV, hEreq]
      exact hreq
    · rw [hV, hEreq]
      rcases hreq with hE | hE
      · rw [hE]
        simp
      · rw [hEreq, hE] at hnm
        simp at hnm
  have hend : isEndOfInterfaceRemoval "-\x7d".toList = true := rfl
  unfold removalPhase
  rw [hend, hVmay']
  simp only [Bool.and_self, if_true]
  rcases hVreq' with hV | hV
  · rw [hV]
    simp [hV]
  · rw [hV, hVc]
    simp [List.erase]

/-- The state reached after the three concrete prefix lines of the
pure-removal scenario (header, removed identifier, removed definition). -/
def c4PrefixState : PState :=
  match parsePatchFrom emptyFsCfg initialState
      [idlHeader, "-[uuid(1)]", "-interface nsIFoo : nsISupports \x7b"] with
  | .ok st => st
  | .error _ => initialState

lemma c4PrefixState_inv : C4Inv c4PrefixState :=
  ⟨rfl, rfl, rfl, rfl, rfl, Or.inr rfl⟩

/-- C4 (confirmed): a patch that deletes an interface outright — its
identifier line removed, then its definition line, then only removal lines
that are not identifier, definition or closing-brace lines, ending in the
removed closing brace — leaves the interface out of the final
`interfacesRequiringNewIID`, whatever those body lines contain. -/
theorem c4_pure_removal_excluded (body : List String)
    (hbody : ∀ l ∈ body, isRemovalLine l.toList = true ∧
      isLineIIDDefinition l.toList = false ∧ isInterfaceDefinitionLine l.toList = false ∧
      isEndOfInterfaceRemoval l.toList = false)
    (r : ParseResult)
    (h : parsePatch emptyFsCfg
      (([idlHeader, "-[uuid(1)]", "-interface nsIFoo : nsISupports \x7b"] ++ body)
        ++ ["-\x7d"]) = .ok r) :
    some "nsIFoo" ∉ r.interfacesRequiringNewIID := by
  unfold parsePatch at h
  cases hrun : parsePatchFrom emptyFsCfg initialState
      (([idlHeader, "-[uuid(1)]", "-interface nsIFoo : nsISupports \x7b"] ++ body)
        ++ ["-\x7d"]) with
  | error e =>
    rw [hrun] at h
    cases h
  | ok stF =>
    rw [hrun] at h
    simp only [Except.map, Except.ok.injEq] at h
    subst h
    rw [parsePatchFrom_append, parsePatchFrom_append] at hrun
    cases hpre : parsePatchFrom emptyFsCfg initialState
        [idlHeader, "-[uuid(1)]", "-interface nsIFoo : nsISupports \x7b"] with
    | error e =>
      rw [hpre] at hrun
      cases hrun
    | ok st3 =>
      simp only [hpre] at hrun
      have hinv3 : C4Inv st3 := by
        have heq : (Except.ok c4PrefixState : Except PyErr PState) = .ok st3 := by
          rw [← hpre]
          rfl
        simp only [Except.ok.injEq] at heq
        rw [← heq]
        exact c4PrefixState_inv
      cases hbodyRun : parsePatchFrom emptyFsCfg st3 body with
      | error e =>
        simp only [hbodyRun] at hrun
        cases hrun
      | ok st4 =>
        simp only [hbodyRun] at hrun
        have hinv4 : C4Inv st4 := c4_body_run hbody hinv3 hbodyRun
        unfold parsePatchFrom at hrun
        split at hrun
        · exact absurd hrun (by simp)
        · rename_i st5 hstep
          have hnotin := c4_close_step hinv4 hstep
          unfold parsePatchFrom at hrun
          simp only [Except.ok.injEq] at hrun
          subst hrun
          exact hnotin

/-- C4 witness: the concrete pure-removal patch with one removed member
line completes and excludes `nsIFoo`. -/
theorem c4_pure_removal_excluded_witness :
    some "nsIFoo" ∉ ([] : List (Option String)) :=
  c4_pure_removal_excluded ["-  long frob();"]
    (fun l hl => by
      simp only [List.mem_singleton] at hl
      subst hl
      exact ⟨rfl, rfl, rfl, rfl⟩)
    ⟨[], [], [(some "nsIFoo", some "nsIFoo.idl")]⟩ rfl

end Checkiid
